import Mathlib

/-!
Shallow embedding of the scatter/gather subsystem of
`ivy/functional/backends/numpy/general.py` (numpy backend of the ivy
array framework), together with theorems settling the frozen claims
about it.

Buffers are modelled as flat row-major `List ℤ` (element values are
taken in `ℤ`; the numeric dtype zoo of numpy is collapsed to one exact
integer-valued carrier, which is faithful for every claim at hand
since none of them exercises rounding).  An N-dimensional array is a
`Tensor`: a shape together with its row-major flattened data.  The
in-place mutation of a caller-supplied `out` buffer is made explicit:
each mutating operation returns, next to its `Except` result, the
final contents of the caller's `out` buffer (or `none` when no buffer
was passed).  Python exceptions become `Except IvyErr`.
-/

/-- Error taxonomy of the embedded functions.  `shapeMismatch` stands for
the `AssertionError` of the shape asserts, `invalidReduction` for the
`Exception` raised on an unknown reduction string, `indexError` for
numpy `IndexError` (out-of-range scatter/gather positions, and the
`result_dim_sizes[num_index_dims - 1]` lookup), `typeError` for
`np.zeros([None])`-style failures when neither a size nor a buffer
determines the target, `valueError` for numpy reshape/broadcast
failures, and `axisError` for an axis invalid for the array rank. -/
inductive IvyErr where
  | shapeMismatch
  | invalidReduction (msg : String)
  | indexError
  | typeError
  | valueError
  | axisError
deriving Repr, DecidableEq

/-- A dense N-dimensional numeric array: shape plus row-major data. -/
structure Tensor where
  shape : List ℕ
  data : List ℤ
deriving Repr, DecidableEq

/-- A dense N-dimensional integer index array: shape plus row-major data. -/
structure NatTensor where
  shape : List ℕ
  data : List ℕ
deriving Repr, DecidableEq

/-- Product of a shape's dimensions (number of elements). -/
def prodL (l : List ℕ) : ℕ := l.foldr (· * ·) 1

/-- The sentinel constant `1e12` used by the `min`/`max` reductions
(exact in `ℤ`). -/
def sentinel : ℤ := 1000000000000

/-- Sequential application of a numpy `ufunc.at`-style update: for each
pair `(i, u)` in order, `target[i] := f target[i] u`.  `np.add.at`,
`np.minimum.at`, `np.maximum.at` and fancy-index assignment
`target[indices] = updates` are all instances (the last with
`f := fun _ u => u`, last write winning on repeated indices, which is
numpy's sequential assignment semantics). -/
def ufuncAtRun (f : ℤ → ℤ → ℤ) : List ℤ → List (ℕ × ℤ) → List ℤ
  | t, [] => t
  | t, p :: ps => ufuncAtRun f (t.set p.1 (f (t.getD p.1 0) p.2)) ps

/-- Validity of a flat scatter: one update per index and all indices in
range.  numpy raises on out-of-range indices and on a length mismatch;
the check is hoisted before the mutation (numpy may leave a partially
updated buffer behind a raised `IndexError`; no claim depends on that,
and all claims use in-range indices). -/
def scatterOk (len : ℕ) (indices : List ℕ) (updates : List ℤ) : Bool :=
  indices.length == updates.length && indices.all (fun i => i < len)

/-- The update values among `ps` that are mapped to flat position `j`,
in application order. -/
def valuesAt (ps : List (ℕ × ℤ)) (j : ℕ) : List ℤ :=
  (ps.filter (fun p => p.1 == j)).map Prod.snd

/-- The error message built by the unknown-reduction branch of
`scatter_flat` and `scatter_nd`:
`'reduction is {}, but it must be one of "sum", "min" or "max"'.format(reduction)`. -/
def redMsg (reduction : String) : String :=
  "reduction is " ++ reduction ++ ", but it must be one of \"sum\", \"min\" or \"max\""

/-- `sub` occurs as a substring of `msg`. -/
def mentions (msg sub : String) : Prop :=
  ∃ pre post, msg = pre ++ sub ++ post

/-- The shape assert of `scatter_flat`:
`assert len(target.shape) == 1 and target.shape[0] == size` fails (runs
only when both `size` and `out` are supplied; buffers are 1-D lists, so
only the length comparison remains). -/
def assertFailFlat (size : Option ℕ) (out : Option (List ℤ)) : Bool :=
  match size, out with
  | some s, some t => t.length != s
  | _, _ => false

/-- Embedding of `scatter_flat` (general.py lines 171-215).  Returns the
function result together with the final contents of the caller's `out`
buffer.  `np.add.at` / `np.minimum.at` / `np.maximum.at` mutate the
supplied buffer in place, so in those branches the final `out` is the
scattered result; the `replace` branch first copies the target
(`target = np.asarray(target).copy()`) and assigns into the copy, so a
supplied `out` keeps its previous contents there.  `_to_device` is the
identity on data for the numpy backend. -/
def scatter_flat (indices : List ℕ) (updates : List ℤ) (size : Option ℕ)
    (reduction : String) (out : Option (List ℤ)) :
    Except IvyErr (List ℤ) × Option (List ℤ) :=
  if assertFailFlat size out then (.error .shapeMismatch, out)
  else if reduction == "sum" then
    match out with
    | some t =>
      if scatterOk t.length indices updates then
        let r := ufuncAtRun (· + ·) t (indices.zip updates)
        (.ok r, some r)
      else (.error .indexError, some t)
    | none =>
      match size with
      | some s =>
        if scatterOk s indices updates then
          (.ok (ufuncAtRun (· + ·) (List.replicate s 0) (indices.zip updates)), none)
        else (.error .indexError, none)
      | none => (.error .typeError, none)
  else if reduction == "replace" then
    match out with
    | some t =>
      if scatterOk t.length indices updates then
        (.ok (ufuncAtRun (fun _ u => u) t (indices.zip updates)), some t)
      else (.error .indexError, some t)
    | none =>
      match size with
      | some s =>
        if scatterOk s indices updates then
          (.ok (ufuncAtRun (fun _ u => u) (List.replicate s 0) (indices.zip updates)), none)
        else (.error .indexError, none)
      | none => (.error .typeError, none)
  else if reduction == "min" then
    match out with
    | some t =>
      if scatterOk t.length indices updates then
        let r := ufuncAtRun (fun a b => min a b) t (indices.zip updates)
        (.ok r, some r)
      else (.error .indexError, some t)
    | none =>
      match size with
      | some s =>
        if scatterOk s indices updates then
          let r := ufuncAtRun (fun a b => min a b) (List.replicate s sentinel)
            (indices.zip updates)
          (.ok (r.map (fun v => if v = sentinel then 0 else v)), none)
        else (.error .indexError, none)
      | none => (.error .typeError, none)
  else if reduction == "max" then
    match out with
    | some t =>
      if scatterOk t.length indices updates then
        let r := ufuncAtRun (fun a b => max a b) t (indices.zip updates)
        (.ok r, some r)
      else (.error .indexError, some t)
    | none =>
      match size with
      | some s =>
        if scatterOk s indices updates then
          let r := ufuncAtRun (fun a b => max a b) (List.replicate s (-sentinel))
            (indices.zip updates)
          (.ok (r.map (fun v => if v = -sentinel then 0 else v)), none)
        else (.error .indexError, none)
      | none => (.error .typeError, none)
  else (.error (.invalidReduction (redMsg reduction)), out)

/-- Worker for `chunk`: consumes the list one element at a time, `acc`
holding the reversed current row and `c` the count still missing from
it (structural recursion, so that concrete calls reduce). -/
def chunkGo (k : ℕ) : List α → List α → ℕ → List (List α)
  | [], acc, _ => if acc.isEmpty then [] else [acc.reverse]
  | x :: xs, acc, c =>
    if c = 1 then (x :: acc).reverse :: chunkGo k xs [] k
    else chunkGo k xs (x :: acc) (c - 1)

/-- Split a flat list into consecutive rows of length `k`
(the embedding of `reshape(-1, k)`; callers guarantee `0 < k` and
`k ∣ length`). -/
def chunk (k : ℕ) (l : List α) : List (List α) :=
  if k = 0 then [] else chunkGo k l [] k

/-- A `DecidableEq` instance for `Except`, so that concrete results of
the embedded operations can be compared by `decide`. -/
instance exceptDecEq {ε α : Type} [DecidableEq ε] [DecidableEq α] :
    DecidableEq (Except ε α) := fun x y =>
  match x, y with
  | .ok a, .ok b =>
    if h : a = b then .isTrue (by rw [h]) else .isFalse (fun e => h (Except.ok.inj e))
  | .error a, .error b =>
    if h : a = b then .isTrue (by rw [h])
    else .isFalse (fun e => h (Except.error.inj e))
  | .ok _, .error _ => .isFalse (fun e => Except.noConfusion e)
  | .error _, .ok _ => .isFalse (fun e => Except.noConfusion e)

/-- A coordinate row is in bounds for a shape: it is no longer than the
shape and each coordinate is below its dimension (numpy raises
`IndexError` otherwise). -/
def coordsOk : List ℕ → List ℕ → Bool
  | _, [] => true
  | [], _ :: _ => false
  | d :: ds, i :: r => i < d && coordsOk ds r

/-- Row-major flat base offset of a (possibly partial) coordinate row
into a buffer of the given shape: `Σ row[j] * prod shape[j+1:]`
(the `result_dim_sizes` stride arithmetic of `gather_nd`, shared by the
fancy-indexing semantics of `scatter_nd`). -/
def rowBase : List ℕ → List ℕ → ℕ
  | _, [] => 0
  | ds, i :: r => i * prodL ds.tail + rowBase ds.tail r

/-- Flat `(position, value)` pairs of an N-dimensional scatter: row `r`
of coordinates addresses the contiguous block of positions
`rowBase .. rowBase + B - 1` (`B` the product of the unaddressed
trailing dimensions), paired with the corresponding update block. -/
def ndPairs (tshape : List ℕ) (rows : List (List ℕ)) (ublocks : List (List ℤ)) :
    List (ℕ × ℤ) :=
  (rows.zip ublocks).flatMap
    (fun rb => (List.range rb.2.length).map
      (fun t => (rowBase tshape rb.1 + t, rb.2.getD t 0)))

/-- Validity of an N-dimensional scatter: every coordinate row in
bounds for the target shape and exactly one update block per row
(numpy raises `IndexError` / broadcast errors otherwise; checked before
mutating, see `scatterOk`). -/
def scatterNdOk (tshape : List ℕ) (rows : List (List ℕ)) (updLen B : ℕ) : Bool :=
  rows.all (coordsOk tshape) && updLen == rows.length * B

/-- The shape assert of `scatter_nd`:
`assert ivy.Shape(target.shape) == ivy.Shape(shape)` fails. -/
def assertFailNd (shape : Option (List ℕ)) (out : Option Tensor) : Bool :=
  match shape, out with
  | some s, some t => s != t.shape
  | _, _ => false

/-- Embedding of `scatter_nd` (general.py lines 219-266).  The target
shape is the explicit `shape` when given, else the shape of `out`
(`list(out.shape)`; both absent is a `TypeError`).  `indices` is
reshaped to rows of length `k = indices.shape[-1]` (`reshape(-1, k)`
fails for `k = 0` or `k ∤ size`).  Unlike `scatter_flat`, every
successful branch ends with `ivy.inplace_update(out, target)` when
`out` was supplied, so the final contents of `out` are always the
result. -/
def scatter_nd (indices : NatTensor) (updates : Tensor) (shape : Option (List ℕ))
    (reduction : String) (out : Option Tensor) :
    Except IvyErr Tensor × Option Tensor :=
  if assertFailNd shape out then (.error .shapeMismatch, out)
  else
    match (match shape with
           | some s => some s
           | none => Option.map Tensor.shape out) with
    | none => (.error .typeError, out)
    | some tshape =>
      let k := indices.shape.getLastD 0
      if k == 0 || indices.data.length % k != 0 then (.error .valueError, out)
      else
        let rows := chunk k indices.data
        let B := prodL (tshape.drop k)
        let ublocks := chunk B updates.data
        let ok := scatterNdOk tshape rows updates.data.length B
        let pairs := ndPairs tshape rows ublocks
        if reduction == "sum" then
          match out with
          | some t =>
            if ok then
              let r := ufuncAtRun (· + ·) t.data pairs
              (.ok ⟨tshape, r⟩, some ⟨tshape, r⟩)
            else (.error .indexError, some t)
          | none =>
            if ok then
              (.ok ⟨tshape, ufuncAtRun (· + ·) (List.replicate (prodL tshape) 0) pairs⟩,
                none)
            else (.error .indexError, none)
        else if reduction == "replace" then
          match out with
          | some t =>
            if ok then
              let r := ufuncAtRun (fun _ u => u) t.data pairs
              (.ok ⟨tshape, r⟩, some ⟨tshape, r⟩)
            else (.error .indexError, some t)
          | none =>
            if ok then
              (.ok ⟨tshape,
                ufuncAtRun (fun _ u => u) (List.replicate (prodL tshape) 0) pairs⟩,
                none)
            else (.error .indexError, none)
        else if reduction == "min" then
          match out with
          | some t =>
            if ok then
              let r := ufuncAtRun (fun a b => min a b) t.data pairs
              (.ok ⟨tshape, r⟩, some ⟨tshape, r⟩)
            else (.error .indexError, some t)
          | none =>
            if ok then
              let r := ufuncAtRun (fun a b => min a b)
                (List.replicate (prodL tshape) sentinel) pairs
              (.ok ⟨tshape, r.map (fun v => if v = sentinel then 0 else v)⟩, none)
            else (.error .indexError, none)
        else if reduction == "max" then
          match out with
          | some t =>
            if ok then
              let r := ufuncAtRun (fun a b => max a b) t.data pairs
              (.ok ⟨tshape, r⟩, some ⟨tshape, r⟩)
            else (.error .indexError, some t)
          | none =>
            if ok then
              let r := ufuncAtRun (fun a b => max a b)
                (List.replicate (prodL tshape) (-sentinel)) pairs
              (.ok ⟨tshape, r.map (fun v => if v = -sentinel then 0 else v)⟩, none)
            else (.error .indexError, none)
        else (.error (.invalidReduction (redMsg reduction)), out)

/-- C-style cast of a flat offset to a 32-bit signed integer, as
performed by `.astype(np.int32)` on the flat gather offsets of
`gather_nd`. -/
def toInt32 (n : ℕ) : ℤ :=
  if (n : ℤ) % 4294967296 < 2147483648 then (n : ℤ) % 4294967296
  else (n : ℤ) % 4294967296 - 4294967296

/-- numpy `np.take` of a single (possibly negative) index from a flat
buffer: a negative index within `-len .. -1` wraps from the end,
anything else out of range raises `IndexError` (`none`). -/
def npTake (data : List ℤ) (i : ℤ) : Option ℤ :=
  if 0 ≤ i ∧ i < (data.length : ℤ) then some (data.getD i.toNat 0)
  else if -(data.length : ℤ) ≤ i ∧ i < 0 then
    some (data.getD (data.length - (-i).toNat) 0)
  else none

/-- Elementwise `np.take` over a list of flat offsets: fails if any
offset is out of range. -/
def npTakeAll (data : List ℤ) : List ℤ → Option (List ℤ)
  | [] => some []
  | i :: rest =>
    match npTake data i, npTakeAll data rest with
    | some v, some vs => some (v :: vs)
    | _, _ => none

/-- Embedding of `gather_nd` (general.py lines 282-309).  Each row of
`k = indices.shape[-1]` coordinates is linearized to
`rowBase + 0 .. rowBase + B - 1` flat offsets
(`B = prod params.shape[k:]`), every offset is cast to int32
(`flat_indices_for_flat.astype(np.int32)`), the flattened `params` is
gathered at those offsets, and the result carries shape
`indices.shape[:-1] + params.shape[k:]`.  `k = 0` and `k ∤ size` fail
at `reshape(-1, k)`; `k` beyond the length of `result_dim_sizes` fails
its lookup.  The `out` parameter is ignored by the source. -/
def gather_nd (params : Tensor) (indices : NatTensor) (out : Option Tensor) :
    Except IvyErr Tensor × Option Tensor :=
  let k := indices.shape.getLastD 0
  if k == 0 || indices.data.length % k != 0 then (.error .valueError, out)
  else if max params.shape.length 1 < k then (.error .indexError, out)
  else
    let B := prodL (params.shape.drop k)
    let rows := chunk k indices.data
    let flatIdx := rows.flatMap
      (fun row => (List.range B).map (fun t => toInt32 (rowBase params.shape row + t)))
    match npTakeAll params.data flatIdx with
    | some vals =>
      (.ok ⟨indices.shape.dropLast ++ params.shape.drop k, vals⟩, out)
    | none => (.error .indexError, out)

/-- Embedding of `gather` (general.py lines 272-279) in its 1-D case:
`np.take_along_axis(params, indices, axis)` over a 1-D `params` selects
`params[i]` for each index (for a 1-D array only axis `0` / `-1` is
valid).  The `out` parameter is ignored by the source, which returns
`_to_device(np.take_along_axis(...))` directly; the caller's buffer is
returned unchanged as the final-`out` component. -/
def gather (params : List ℤ) (indices : List ℕ) (axis : ℤ)
    (out : Option (List ℤ)) : Except IvyErr (List ℤ) × Option (List ℤ) :=
  (if axis = 0 ∨ axis = -1 then
    (if indices.all (fun i => i < params.length) then
      .ok (indices.map (fun i => params.getD i 0))
    else .error .indexError)
  else .error .axisError, out)

/-- Inclusive cumulative product with running accumulator
(`np.cumprod` over a 1-D array). -/
def cumprodList : ℤ → List ℤ → List ℤ
  | _, [] => []
  | acc, v :: r => (acc * v) :: cumprodList (acc * v) r

/-- Embedding of `cumprod` (general.py lines 151-168) over a 1-D array
along axis 0 (on a 1-D input the `swapaxes(axis, -1)` pair is the
identity).  Exclusive mode concatenates `ones_like(x[..., -1:])`
(empty for an empty input, `[1]` otherwise) with `x[..., :-1]` before
the inclusive cumulative product. -/
def cumprod (x : List ℤ) (exclusive : Bool) : List ℤ :=
  if exclusive then
    match x with
    | [] => []
    | _ :: _ => cumprodList 1 (1 :: x.dropLast)
  else cumprodList 1 x

theorem ufuncAtRun_length (f : ℤ → ℤ → ℤ) (ps : List (ℕ × ℤ)) (t : List ℤ) :
    (ufuncAtRun f t ps).length = t.length := by
  induction ps generalizing t with
  | nil => rfl
  | cons p ps ih => simp [ufuncAtRun, ih]

theorem valuesAt_cons (p : ℕ × ℤ) (ps : List (ℕ × ℤ)) (j : ℕ) :
    valuesAt (p :: ps) j = if p.1 = j then p.2 :: valuesAt ps j else valuesAt ps j := by
  by_cases hp : p.1 = j <;> simp [valuesAt, List.filter_cons, hp]

theorem ufuncAtRun_getD (f : ℤ → ℤ → ℤ) (ps : List (ℕ × ℤ)) (t : List ℤ) (j : ℕ)
    (hj : j < t.length) :
    (ufuncAtRun f t ps).getD j 0 = (valuesAt ps j).foldl f (t.getD j 0) := by
  induction ps generalizing t with
  | nil => simp [ufuncAtRun, valuesAt]
  | cons p ps ih =>
    rw [ufuncAtRun, ih _ (by simpa using hj), valuesAt_cons]
    by_cases hp : p.1 = j
    · subst hp
      rw [if_pos rfl, List.foldl_cons]
      congr 1
      simp [List.getD_eq_getElem?_getD, List.getElem?_set_self hj]
    · rw [if_neg hp]
      congr 1
      simp [List.getD_eq_getElem?_getD, List.getElem?_set_ne hp]

theorem foldl_add_eq (l : List ℤ) (a : ℤ) : l.foldl (· + ·) a = a + l.sum := by
  induction l generalizing a with
  | nil => simp
  | cons x xs ih => simp only [List.foldl_cons, List.sum_cons, ih]; ring

theorem foldl_last_eq (l : List ℤ) (a : ℤ) :
    l.foldl (fun _ u => u) a = l.getLastD a := by
  induction l generalizing a with
  | nil => rfl
  | cons x xs ih => rw [List.foldl_cons, List.getLastD_cons]; exact ih x

theorem cumprodList_length (x : List ℤ) (a : ℤ) :
    (cumprodList a x).length = x.length := by
  induction x generalizing a with
  | nil => rfl
  | cons v r ih => simp [cumprodList, ih]

theorem cumprodList_getD (x : List ℤ) (a : ℤ) (i : ℕ) (hi : i < x.length) :
    (cumprodList a x).getD i 0 = a * (x.take (i + 1)).prod := by
  induction x generalizing a i with
  | nil => simp at hi
  | cons v r ih =>
    cases i with
    | zero => simp [cumprodList]
    | succ n =>
      rw [cumprodList, List.getD_cons_succ, ih _ _ (by simpa using hi)]
      simp [List.take_succ_cons, mul_assoc]

/-- C10: `gather` ignores its `out` parameter entirely: the returned buffer
is the same whether or not an `out` buffer is supplied, and a supplied
`out` buffer is never written to (its final contents are its initial
contents). -/
theorem C10_gather_ignores_out (params : List ℤ) (indices : List ℕ) (axis : ℤ)
    (out : Option (List ℤ)) :
    (gather params indices axis out).1 = (gather params indices axis none).1 ∧
    (gather params indices axis out).2 = out :=
  ⟨rfl, rfl⟩

/-- C6: supplying both an explicit size/shape and an output buffer that
disagree makes `scatter_flat` and `scatter_nd` fail with the shape
mismatch error (for every reduction string), with the output buffer
left untouched, i.e. before any write occurs. -/
theorem C6_shape_conflict :
    (∀ (indices : List ℕ) (updates : List ℤ) (s : ℕ) (t : List ℤ) (red : String),
      t.length ≠ s →
      scatter_flat indices updates (some s) red (some t)
        = (.error .shapeMismatch, some t))
    ∧ (∀ (ind : NatTensor) (upd : Tensor) (sh : List ℕ) (T : Tensor) (red : String),
      sh ≠ T.shape →
      scatter_nd ind upd (some sh) red (some T) = (.error .shapeMismatch, some T)) := by
  constructor
  · intro indices updates s t red h
    simp [scatter_flat, assertFailFlat, bne_iff_ne, h]
  · intro ind upd sh T red h
    simp [scatter_nd, assertFailNd, bne_iff_ne, h]

/-- Witness for C6 at the spec's own example: explicit shape `[4]`
against an `out` buffer of shape `[5]`. -/
theorem C6_witness :
    (([5, 5, 5, 5, 5] : List ℤ).length ≠ 4) ∧
    scatter_flat [0] [1] (some 4) "sum" (some [5, 5, 5, 5, 5])
      = (.error .shapeMismatch, some [5, 5, 5, 5, 5]) ∧
    (([4] : List ℕ) ≠ (Tensor.mk [5] [5, 5, 5, 5, 5]).shape) ∧
    scatter_nd ⟨[1, 1], [0]⟩ ⟨[1], [1]⟩ (some [4]) "sum" (some ⟨[5], [5, 5, 5, 5, 5]⟩)
      = (.error .shapeMismatch, some ⟨[5], [5, 5, 5, 5, 5]⟩) :=
  ⟨by decide, C6_shape_conflict.1 [0] [1] 4 [5, 5, 5, 5, 5] "sum" (by decide),
   by decide, C6_shape_conflict.2 ⟨[1, 1], [0]⟩ ⟨[1], [1]⟩ [4] ⟨[5], [5, 5, 5, 5, 5]⟩
      "sum" (by decide)⟩

/-- C9: `cumprod` with `exclusive := true` yields the exclusive prefix
products (the multiplicative identity at position 0, the product of the
first `i` values at position `i`, the last input value never entering),
which is exactly the shift-right-by-one-then-scan description; on
`[2, 3, 4]` the output is `[1, 2, 6]`. -/
theorem C9_cumprod_exclusive :
    (∀ (x : List ℤ), (cumprod x true).length = x.length ∧
      ∀ i, i < x.length → (cumprod x true).getD i 0 = (x.take i).prod) ∧
    cumprod [2, 3, 4] true = [1, 2, 6] := by
  refine ⟨fun x => ?_, by decide⟩
  cases x with
  | nil => exact ⟨rfl, fun i hi => by simp at hi⟩
  | cons v r =>
    constructor
    · simp [cumprod, cumprodList_length]
    · intro i hi
      show (cumprodList 1 (1 :: (v :: r).dropLast)).getD i 0 = (List.take i (v :: r)).prod
      rw [cumprodList_getD _ _ _ (by simpa using hi)]
      cases i with
      | zero => simp
      | succ n =>
        rw [List.take_succ_cons, List.prod_cons, one_mul, one_mul,
          List.dropLast_eq_take, List.take_take]
        simp only [List.length_cons] at hi ⊢
        have hm : (n + 1) ⊓ (r.length + 1 - 1) = n + 1 := by omega
        rw [hm]

/-- Witness for C9: the exclusive cumulative product of `[2, 3, 4]` holds
the product of the first value, `2`, at position `1`. -/
theorem C9_witness :
    (1 < ([2, 3, 4] : List ℤ).length) ∧
    (cumprod [2, 3, 4] true).getD 1 0 = (([2, 3, 4] : List ℤ).take 1).prod :=
  ⟨by decide, (C9_cumprod_exclusive.1 [2, 3, 4]).2 1 (by decide)⟩

theorem addAt_twice (t : List ℤ) (i : ℕ) (a b : ℤ) (hi : i < t.length) :
    ufuncAtRun (· + ·) t [(i, a), (i, b)] = ufuncAtRun (· + ·) t [(i, a + b)] := by
  simp [ufuncAtRun, List.getD_eq_getElem?_getD, List.getElem?_set_self hi,
    List.set_set, add_assoc]

theorem chunkGo_spec (k : ℕ) (l acc : List α) (c : ℕ) (hc : 1 ≤ c)
    (hne : ¬(l = [] ∧ acc = [])) :
    chunkGo k l acc c = (acc.reverse ++ l.take c) :: chunkGo k (l.drop c) [] k := by
  induction l generalizing acc c with
  | nil =>
    have hacc : acc ≠ [] := fun e => hne ⟨rfl, e⟩
    simp [chunkGo, hacc]
  | cons x xs ih =>
    by_cases h1 : c = 1
    · subst h1
      simp [chunkGo, List.reverse_cons]
    · rw [chunkGo, if_neg h1,
        ih (x :: acc) (c - 1) (by omega) (fun e => List.noConfusion e.2)]
      have ht : (x :: xs).take c = x :: xs.take (c - 1) := by
        cases c with
        | zero => omega
        | succ n => simp [List.take_succ_cons]
      have hd : (x :: xs).drop c = xs.drop (c - 1) := by
        cases c with
        | zero => omega
        | succ n => simp [List.drop_succ_cons]
      rw [ht, hd, List.reverse_cons, List.append_assoc]
      simp

theorem chunk_nil (k : ℕ) : chunk k ([] : List α) = [] := by
  simp [chunk, chunkGo]

theorem chunk_cons (k : ℕ) (hk : k ≠ 0) (x : α) (xs : List α) :
    chunk k (x :: xs) = (x :: xs).take k :: chunk k ((x :: xs).drop k) := by
  rw [chunk, if_neg hk,
    chunkGo_spec k (x :: xs) [] k (by omega) (fun e => List.noConfusion e.1)]
  rw [chunk, if_neg hk]
  cases hd : (x :: xs).drop k with
  | nil => simp [chunkGo]
  | cons y ys => simp

theorem chunk_block (k : ℕ) (hk : k ≠ 0) (l r : List α) (h : l.length = k) :
    chunk k (l ++ r) = l :: chunk k r := by
  subst h
  cases l with
  | nil => simp at hk
  | cons x xs =>
    rw [List.cons_append, chunk_cons _ hk, ← List.cons_append,
      List.take_left, List.drop_left]

theorem prodL_pos_of_coords (s row : List ℕ) (h : coordsOk s row = true)
    (hlen : row.length = s.length) : 0 < prodL s := by
  induction row generalizing s with
  | nil =>
    cases s with
    | nil => simp [prodL]
    | cons d ds => simp at hlen
  | cons i r ih =>
    cases s with
    | nil => simp at hlen
    | cons d ds =>
      simp only [coordsOk, Bool.and_eq_true, decide_eq_true_eq] at h
      simp only [List.length_cons] at hlen
      have := ih ds h.2 (by omega)
      show 0 < d * prodL ds
      exact Nat.mul_pos (by omega) this

theorem rowBase_block_le (s row : List ℕ) (h : coordsOk s row = true) :
    rowBase s row + prodL (s.drop row.length) ≤ prodL s := by
  induction row generalizing s with
  | nil => simp [rowBase]
  | cons i r ih =>
    cases s with
    | nil => simp [coordsOk] at h
    | cons d ds =>
      simp only [coordsOk, Bool.and_eq_true, decide_eq_true_eq] at h
      have hb := ih ds h.2
      show i * prodL ds + rowBase ds r + prodL (ds.drop r.length) ≤ d * prodL ds
      have h1 : i + 1 ≤ d := h.1
      have h2 : (i + 1) * prodL ds ≤ d * prodL ds := Nat.mul_le_mul_right _ h1
      have h3 : (i + 1) * prodL ds = i * prodL ds + prodL ds := by ring
      omega

theorem chunk_self (k : ℕ) (hk : k ≠ 0) (l : List α) (h : l.length = k) :
    chunk k l = [l] := by
  have := chunk_block k hk l [] h
  simpa [chunk_nil] using this

/-- C5: with reduction `"sum"`, scattering the updates `[a, b]` at one
repeated index produces the same buffer as scattering the single update
`a + b` at that index once — for `scatter_flat` under every size/out
configuration, and for `scatter_nd` with a repeated coordinate row. -/
theorem C5_sum_collision (i : ℕ) (a b : ℤ) :
    (∀ (size : Option ℕ) (out : Option (List ℤ)),
      scatter_flat [i, i] [a, b] size "sum" out
        = scatter_flat [i] [a + b] size "sum" out)
    ∧ ∀ (row : List ℕ) (tshape : List ℕ),
      scatter_nd ⟨[2, row.length], row ++ row⟩ ⟨[2], [a, b]⟩ (some tshape) "sum" none
        = scatter_nd ⟨[1, row.length], row⟩ ⟨[1], [a + b]⟩ (some tshape) "sum" none := by
  constructor
  · intro size out
    by_cases hA : assertFailFlat size out = true
    · simp [scatter_flat, hA]
    · cases out with
      | some t =>
        by_cases hi : i < t.length
        · simp [scatter_flat, hA, scatterOk, hi, addAt_twice t i a b hi]
        · simp [scatter_flat, hA, scatterOk, hi]
      | none =>
        cases size with
        | some s =>
          by_cases hi : i < s
          · have h2 := addAt_twice (List.replicate s 0) i a b (by simpa using hi)
            simp [scatter_flat, hA, scatterOk, hi, h2]
          · simp [scatter_flat, hA, scatterOk, hi]
        | none => simp [scatter_flat, hA]
  · intro row tshape
    by_cases hk : row.length = 0
    · have hrow : row = [] := List.eq_nil_of_length_eq_zero hk
      subst hrow
      simp [scatter_nd, assertFailNd]
    · have hL2 : (row ++ row).length % row.length = 0 := by
        simp [List.length_append, Nat.add_mod_left]
      have hrows2 : chunk row.length (row ++ row) = [row, row] := by
        rw [chunk_block row.length hk row row rfl, chunk_self row.length hk row rfl]
      have hrows1 : chunk row.length row = [row] := chunk_self row.length hk row rfl
      by_cases hB : prodL (tshape.drop row.length) = 1
      · by_cases hc : coordsOk tshape row = true
        · have hbase : rowBase tshape row < prodL tshape := by
            have := rowBase_block_le tshape row hc
            omega
          have h2 := addAt_twice (List.replicate (prodL tshape) 0)
            (rowBase tshape row) a b (by simpa using hbase)
          have hub2 : chunk 1 ([a, b] : List ℤ) = [[a], [b]] := by
            simp [chunk, chunkGo]
          have hub1 : chunk 1 ([a + b] : List ℤ) = [[a + b]] := by
            simp [chunk, chunkGo]
          have hpairs2 : ndPairs tshape [row, row] [[a], [b]]
              = [(rowBase tshape row, a), (rowBase tshape row, b)] := by
            simp [ndPairs, List.range_succ]
          have hpairs1 : ndPairs tshape [row] [[a + b]]
              = [(rowBase tshape row, a + b)] := by
            simp [ndPairs, List.range_succ]
          simp [scatter_nd, assertFailNd, hk, hL2, hrows2, hrows1, hB, scatterNdOk,
            hc, hub2, hub1, hpairs2, hpairs1, h2]
        · simp [scatter_nd, assertFailNd, hk, hL2, hrows2, hrows1, hB, scatterNdOk, hc]
      · have h2B : ∀ B : ℕ, B ≠ 1 → ((2 : ℕ) == 2 * B) = false := by
          intro B hB1
          simp only [beq_eq_false_iff_ne, ne_eq]
          omega
        have h1B : ∀ B : ℕ, B ≠ 1 → ((1 : ℕ) == 1 * B) = false := by
          intro B hB1
          simp only [beq_eq_false_iff_ne, ne_eq]
          omega
        have hok2 : scatterNdOk tshape [row, row] 2 (prodL (tshape.drop row.length))
            = false := by
          simp only [scatterNdOk, List.length_cons, List.length_nil, Nat.zero_add,
            Nat.reduceAdd]
          rw [h2B _ hB, Bool.and_false]
        have hok1 : scatterNdOk tshape [row] 1 (prodL (tshape.drop row.length))
            = false := by
          simp only [scatterNdOk, List.length_cons, List.length_nil, Nat.zero_add,
            Nat.reduceAdd]
          rw [h1B _ hB, Bool.and_false]
        simp [scatter_nd, assertFailNd, hk, hL2, hrows2, hrows1, hok2, hok1]

/-- Counterexample to C2 as stated: for the unknown reduction `"avg"`,
the raised error message names only `"sum"`, `"min"` and `"max"` — it
does not name `"replace"`, although `"replace"` belongs to the allowed
set of reduction identifiers, so the message does not name the allowed
set. -/
theorem C2_counterexample :
    scatter_flat [0] [1] (some 1) "avg" none
      = (.error (.invalidReduction
        "reduction is avg, but it must be one of \"sum\", \"min\" or \"max\""), none)
    ∧ ¬ mentions
        "reduction is avg, but it must be one of \"sum\", \"min\" or \"max\""
        "replace" := by
  constructor
  · rfl
  · rintro ⟨pre, post, hEq⟩
    have hd : pre.data ++ "replace".data ++ post.data
        = ("reduction is avg, but it must be one of \"sum\", \"min\" or \"max\""
            : String).data := by
      rw [← String.data_append, ← String.data_append, ← hEq]
    have hinf : "replace".data
        <:+: ("reduction is avg, but it must be one of \"sum\", \"min\" or \"max\""
            : String).data :=
      ⟨pre.data, post.data, hd⟩
    exact absurd hinf (by decide)

/-- C2 as amended: for every reduction string outside
`{"sum", "replace", "min", "max"}`, `scatter_flat` (whenever its shape
assert passes) and `scatter_nd` (whenever target-shape resolution and
the index reshape succeed) fail with the invalid-reduction error whose
message names `"sum"`, `"min"` and `"max"` — but not `"replace"` — and
any supplied output buffer keeps its initial contents. -/
theorem C2_amended_unknown_reduction :
    ∀ red : String, red ∉ (["sum", "replace", "min", "max"] : List String) →
    (∀ (indices : List ℕ) (updates : List ℤ) (size : Option ℕ)
        (out : Option (List ℤ)),
      assertFailFlat size out = false →
      scatter_flat indices updates size red out
        = (.error (.invalidReduction (redMsg red)), out))
    ∧ (∀ (ind : NatTensor) (upd : Tensor) (shape : Option (List ℕ))
        (out : Option Tensor) (tshape : List ℕ),
      assertFailNd shape out = false →
      (match shape with
       | some s => some s
       | none => Option.map Tensor.shape out) = some tshape →
      ind.shape.getLastD 0 ≠ 0 →
      ind.data.length % ind.shape.getLastD 0 = 0 →
      scatter_nd ind upd shape red out
        = (.error (.invalidReduction (redMsg red)), out))
    ∧ mentions (redMsg red) "sum" ∧ mentions (redMsg red) "min"
    ∧ mentions (redMsg red) "max" := by
  intro red hred
  simp only [List.mem_cons, List.not_mem_nil, or_false, not_or] at hred
  obtain ⟨hsum, hrep, hmin, hmax⟩ := hred
  refine ⟨?_, ?_, ?_, ?_, ?_⟩
  · intro indices updates size out hA
    simp [scatter_flat, hA, hsum, hrep, hmin, hmax]
  · intro ind upd shape out tshape hA hres hk hmod
    simp [scatter_nd, hA, hres, hsum, hrep, hmin, hmax]
    exact ⟨by simpa using hk, by simpa using hmod⟩
  · refine ⟨"reduction is " ++ red ++ ", but it must be one of \"",
      "\", \"min\" or \"max\"", ?_⟩
    have hs : (", but it must be one of \"sum\", \"min\" or \"max\"" : String)
        = ", but it must be one of \"" ++ "sum" ++ "\", \"min\" or \"max\"" := by decide
    rw [redMsg, hs]
    simp [String.append_assoc]
  · refine ⟨"reduction is " ++ red ++ ", but it must be one of \"sum\", \"",
      "\" or \"max\"", ?_⟩
    have hs : (", but it must be one of \"sum\", \"min\" or \"max\"" : String)
        = ", but it must be one of \"sum\", \"" ++ "min" ++ "\" or \"max\"" := by decide
    rw [redMsg, hs]
    simp [String.append_assoc]
  · refine ⟨"reduction is " ++ red ++ ", but it must be one of \"sum\", \"min\" or \"",
      "\"", ?_⟩
    have hs : (", but it must be one of \"sum\", \"min\" or \"max\"" : String)
        = ", but it must be one of \"sum\", \"min\" or \"" ++ "max" ++ "\"" := by decide
    rw [redMsg, hs]
    simp [String.append_assoc]

/-- Witness for the amended C2 with reduction `"avg"` and supplied output
buffers: both functions raise the invalid-reduction error and leave the
buffers as they were. -/
theorem C2_witness :
    ("avg" ∉ (["sum", "replace", "min", "max"] : List String)) ∧
    scatter_flat [0] [1] none "avg" (some [9])
      = (.error (.invalidReduction (redMsg "avg")), some [9]) ∧
    scatter_nd ⟨[1, 1], [0]⟩ ⟨[1], [1]⟩ none "avg" (some ⟨[2], [7, 8]⟩)
      = (.error (.invalidReduction (redMsg "avg")), some ⟨[2], [7, 8]⟩) := by
  have h := C2_amended_unknown_reduction "avg" (by decide)
  exact ⟨by decide, h.1 [0] [1] none (some [9]) (by decide),
    h.2.1 ⟨[1, 1], [0]⟩ ⟨[1], [1]⟩ none (some ⟨[2], [7, 8]⟩) [2]
      (by decide) (by decide) (by decide) (by decide)⟩

/-- Counterexample to C1 as stated: `scatter_flat` with reduction
`"replace"` and a supplied output buffer succeeds and returns the
scattered result `[5]`, but the buffer still holds its old contents
`[7]` afterwards — the result is not written back into `out`
(the source assigns into a copy and never copies back). -/
theorem C1_counterexample :
    scatter_flat [0] [5] none "replace" (some [7]) = (.ok [5], some [7])
    ∧ (some [7] : Option (List ℤ)) ≠ some [5] :=
  ⟨rfl, by decide⟩

/-- C1 as amended: with a supplied output buffer, every rule is applied
onto the buffer's existing contents with no zero/sentinel
re-initialization, and the scattered result is returned; for `"sum"`,
`"min"` and `"max"` `scatter_flat` also leaves the result in `out` (the
`ufunc.at` calls mutate it in place), while for `"replace"`
`scatter_flat` builds the result in a copy and leaves `out` unmutated;
`scatter_nd` writes the result back into `out` for all four rules. -/
theorem C1_amended_out_semantics :
    (∀ (t : List ℤ) (indices : List ℕ) (updates : List ℤ),
      scatterOk t.length indices updates = true →
      (∃ R, scatter_flat indices updates none "sum" (some t) = (.ok R, some R)
        ∧ R.length = t.length
        ∧ ∀ j, j < t.length →
            R.getD j 0 = t.getD j 0 + (valuesAt (indices.zip updates) j).sum)
      ∧ (∃ R, scatter_flat indices updates none "min" (some t) = (.ok R, some R)
        ∧ R.length = t.length
        ∧ ∀ j, j < t.length →
            R.getD j 0 = (valuesAt (indices.zip updates) j).foldl min (t.getD j 0))
      ∧ (∃ R, scatter_flat indices updates none "max" (some t) = (.ok R, some R)
        ∧ R.length = t.length
        ∧ ∀ j, j < t.length →
            R.getD j 0 = (valuesAt (indices.zip updates) j).foldl max (t.getD j 0))
      ∧ (∃ R, scatter_flat indices updates none "replace" (some t) = (.ok R, some t)
        ∧ R.length = t.length
        ∧ ∀ j, j < t.length →
            R.getD j 0 = (valuesAt (indices.zip updates) j).getLastD (t.getD j 0)))
    ∧ ∀ (ind : NatTensor) (upd : Tensor) (T : Tensor),
      ind.shape.getLastD 0 ≠ 0 →
      ind.data.length % ind.shape.getLastD 0 = 0 →
      scatterNdOk T.shape (chunk (ind.shape.getLastD 0) ind.data) upd.data.length
        (prodL (T.shape.drop (ind.shape.getLastD 0))) = true →
      ∀ red ∈ (["sum", "replace", "min", "max"] : List String),
        ∃ R, scatter_nd ind upd none red (some T) = (.ok R, some R) := by
  constructor
  · intro t indices updates hok
    refine ⟨⟨ufuncAtRun (· + ·) t (indices.zip updates), ?_,
        ufuncAtRun_length _ _ _, fun j hj => ?_⟩,
      ⟨ufuncAtRun (fun a b => min a b) t (indices.zip updates), ?_,
        ufuncAtRun_length _ _ _, fun j hj => ?_⟩,
      ⟨ufuncAtRun (fun a b => max a b) t (indices.zip updates), ?_,
        ufuncAtRun_length _ _ _, fun j hj => ?_⟩,
      ⟨ufuncAtRun (fun _ u => u) t (indices.zip updates), ?_,
        ufuncAtRun_length _ _ _, fun j hj => ?_⟩⟩
    · simp [scatter_flat, assertFailFlat, hok]
    · rw [ufuncAtRun_getD _ _ _ _ hj, foldl_add_eq]
    · simp [scatter_flat, assertFailFlat, hok]
    · exact ufuncAtRun_getD _ _ _ _ hj
    · simp [scatter_flat, assertFailFlat, hok]
    · exact ufuncAtRun_getD _ _ _ _ hj
    · simp [scatter_flat, assertFailFlat, hok]
    · rw [ufuncAtRun_getD _ _ _ _ hj, foldl_last_eq]
  · intro ind upd T hk hmod hok red hred
    simp only [List.mem_cons, List.not_mem_nil, or_false] at hred
    have hk2 : ¬ ind.shape.getLast?.getD 0 = 0 := by simpa using hk
    have hmod2 : ind.data.length % ind.shape.getLast?.getD 0 = 0 := by simpa using hmod
    have hok2 : scatterNdOk T.shape (chunk (ind.shape.getLast?.getD 0) ind.data)
        upd.data.length (prodL (List.drop (ind.shape.getLast?.getD 0) T.shape))
        = true := by simpa using hok
    rcases hred with h | h | h | h <;> subst h
    · refine ⟨⟨T.shape, ufuncAtRun (· + ·) T.data
        (ndPairs T.shape (chunk (ind.shape.getLastD 0) ind.data)
          (chunk (prodL (T.shape.drop (ind.shape.getLastD 0))) upd.data))⟩, ?_⟩
      simp [scatter_nd, assertFailNd, hk2, hmod2, hok2]
    · refine ⟨⟨T.shape, ufuncAtRun (fun _ u => u) T.data
        (ndPairs T.shape (chunk (ind.shape.getLastD 0) ind.data)
          (chunk (prodL (T.shape.drop (ind.shape.getLastD 0))) upd.data))⟩, ?_⟩
      simp [scatter_nd, assertFailNd, hk2, hmod2, hok2]
    · refine ⟨⟨T.shape, ufuncAtRun (fun a b => min a b) T.data
        (ndPairs T.shape (chunk (ind.shape.getLastD 0) ind.data)
          (chunk (prodL (T.shape.drop (ind.shape.getLastD 0))) upd.data))⟩, ?_⟩
      simp [scatter_nd, assertFailNd, hk2, hmod2, hok2]
    · refine ⟨⟨T.shape, ufuncAtRun (fun a b => max a b) T.data
        (ndPairs T.shape (chunk (ind.shape.getLastD 0) ind.data)
          (chunk (prodL (T.shape.drop (ind.shape.getLastD 0))) upd.data))⟩, ?_⟩
      simp [scatter_nd, assertFailNd, hk2, hmod2, hok2]

/-- Witness for the amended C1: a `"sum"` scatter into a supplied flat
buffer leaves the result in the buffer, and a `"replace"` `scatter_nd`
writes the result back into its supplied buffer. -/
theorem C1_witness :
    scatterOk ([10, 20] : List ℤ).length [0, 0] [1, 2] = true ∧
    (∃ R, scatter_flat [0, 0] [1, 2] none "sum" (some [10, 20]) = (.ok R, some R)) ∧
    (∃ R, scatter_nd ⟨[1, 1], [0]⟩ ⟨[1], [5]⟩ none "replace" (some ⟨[2], [7, 8]⟩)
      = (.ok R, some R)) := by
  have hf := (C1_amended_out_semantics.1 [10, 20] [0, 0] [1, 2] (by decide)).1
  obtain ⟨R, hR, -, -⟩ := hf
  have hn := C1_amended_out_semantics.2 ⟨[1, 1], [0]⟩ ⟨[1], [5]⟩ ⟨[2], [7, 8]⟩
    (by decide) (by decide) (by decide) "replace" (by decide)
  exact ⟨by decide, ⟨R, hR⟩, hn⟩

theorem getD_map_lt (f : ℤ → ℤ) (l : List ℤ) (j : ℕ) (h : j < l.length) :
    (l.map f).getD j 0 = f (l.getD j 0) := by
  rw [List.getD_eq_getElem?_getD, List.getD_eq_getElem?_getD, List.getElem?_map,
    List.getElem?_eq_getElem h]
  simp

theorem getD_replicate_lt (s j : ℕ) (v : ℤ) (h : j < s) :
    (List.replicate s v).getD j 0 = v := by
  simp [List.getD_eq_getElem?_getD, List.getElem?_replicate, h]

/-- C3: with reduction `"min"` / `"max"` and no output buffer,
`scatter_flat` and `scatter_nd` start from a target pre-filled with the
sentinel `1e12` / `-1e12`, fold the elementwise minimum / maximum of
all updates mapped to each position into it, and normalize every
position still holding the sentinel to `0` (so an unreferenced position
reads `0`, and an updated one reads the min/max over its updates); in
particular `"max"` with `indices = [0,0,1]`, `updates = [3,5,7]`,
`size = 2` yields `[5, 7]`. -/
theorem C3_minmax_sentinel :
    (∀ (s : ℕ) (indices : List ℕ) (updates : List ℤ),
      scatterOk s indices updates = true →
      (∃ R, scatter_flat indices updates (some s) "min" none = (.ok R, none)
        ∧ R.length = s
        ∧ ∀ j, j < s → R.getD j 0 =
          (if (valuesAt (indices.zip updates) j).foldl min sentinel = sentinel then 0
           else (valuesAt (indices.zip updates) j).foldl min sentinel))
      ∧ (∃ R, scatter_flat indices updates (some s) "max" none = (.ok R, none)
        ∧ R.length = s
        ∧ ∀ j, j < s → R.getD j 0 =
          (if (valuesAt (indices.zip updates) j).foldl max (-sentinel) = -sentinel
           then 0
           else (valuesAt (indices.zip updates) j).foldl max (-sentinel))))
    ∧ (∀ (ind : NatTensor) (upd : Tensor) (tshape : List ℕ),
      ind.shape.getLastD 0 ≠ 0 →
      ind.data.length % ind.shape.getLastD 0 = 0 →
      scatterNdOk tshape (chunk (ind.shape.getLastD 0) ind.data) upd.data.length
        (prodL (tshape.drop (ind.shape.getLastD 0))) = true →
      (∃ R, scatter_nd ind upd (some tshape) "min" none = (.ok R, none)
        ∧ R.shape = tshape ∧ R.data.length = prodL tshape
        ∧ ∀ j, j < prodL tshape → R.data.getD j 0 =
          (if (valuesAt (ndPairs tshape (chunk (ind.shape.getLastD 0) ind.data)
                (chunk (prodL (tshape.drop (ind.shape.getLastD 0))) upd.data))
                j).foldl min sentinel = sentinel then 0
           else (valuesAt (ndPairs tshape (chunk (ind.shape.getLastD 0) ind.data)
                (chunk (prodL (tshape.drop (ind.shape.getLastD 0))) upd.data))
                j).foldl min sentinel))
      ∧ (∃ R, scatter_nd ind upd (some tshape) "max" none = (.ok R, none)
        ∧ R.shape = tshape ∧ R.data.length = prodL tshape
        ∧ ∀ j, j < prodL tshape → R.data.getD j 0 =
          (if (valuesAt (ndPairs tshape (chunk (ind.shape.getLastD 0) ind.data)
                (chunk (prodL (tshape.drop (ind.shape.getLastD 0))) upd.data))
                j).foldl max (-sentinel) = -sentinel then 0
           else (valuesAt (ndPairs tshape (chunk (ind.shape.getLastD 0) ind.data)
                (chunk (prodL (tshape.drop (ind.shape.getLastD 0))) upd.data))
                j).foldl max (-sentinel))))
    ∧ scatter_flat [0, 0, 1] [3, 5, 7] (some 2) "max" none = (.ok [5, 7], none) := by
  refine ⟨fun s indices updates hok => ⟨?_, ?_⟩,
    fun ind upd tshape hk hmod hok => ?_, by decide⟩
  · refine ⟨(ufuncAtRun (fun a b => min a b) (List.replicate s sentinel)
      (indices.zip updates)).map (fun v => if v = sentinel then 0 else v),
      ?_, ?_, fun j hj => ?_⟩
    · simp [scatter_flat, assertFailFlat, hok]
    · rw [List.length_map, ufuncAtRun_length, List.length_replicate]
    · rw [getD_map_lt _ _ _
          (by rw [ufuncAtRun_length, List.length_replicate]; exact hj),
        ufuncAtRun_getD _ _ _ _ (by rw [List.length_replicate]; exact hj),
        getD_replicate_lt _ _ _ hj]
  · refine ⟨(ufuncAtRun (fun a b => max a b) (List.replicate s (-sentinel))
      (indices.zip updates)).map (fun v => if v = -sentinel then 0 else v),
      ?_, ?_, fun j hj => ?_⟩
    · simp [scatter_flat, assertFailFlat, hok]
    · rw [List.length_map, ufuncAtRun_length, List.length_replicate]
    · rw [getD_map_lt _ _ _
          (by rw [ufuncAtRun_length, List.length_replicate]; exact hj),
        ufuncAtRun_getD _ _ _ _ (by rw [List.length_replicate]; exact hj),
        getD_replicate_lt _ _ _ hj]
  · have hk2 : ¬ ind.shape.getLast?.getD 0 = 0 := by simpa using hk
    have hmod2 : ind.data.length % ind.shape.getLast?.getD 0 = 0 := by
      simpa using hmod
    have hok2 : scatterNdOk tshape (chunk (ind.shape.getLast?.getD 0) ind.data)
        upd.data.length (prodL (List.drop (ind.shape.getLast?.getD 0) tshape))
        = true := by simpa using hok
    constructor
    · refine ⟨⟨tshape, (ufuncAtRun (fun a b => min a b)
        (List.replicate (prodL tshape) sentinel)
        (ndPairs tshape (chunk (ind.shape.getLastD 0) ind.data)
          (chunk (prodL (tshape.drop (ind.shape.getLastD 0))) upd.data))).map
        (fun v => if v = sentinel then 0 else v)⟩, ?_, rfl, ?_, fun j hj => ?_⟩
      · simp [scatter_nd, assertFailNd, hk2, hmod2, hok2]
      · rw [List.length_map, ufuncAtRun_length, List.length_replicate]
      · rw [getD_map_lt _ _ _
            (by rw [ufuncAtRun_length, List.length_replicate]; exact hj),
          ufuncAtRun_getD _ _ _ _ (by rw [List.length_replicate]; exact hj),
          getD_replicate_lt _ _ _ hj]
    · refine ⟨⟨tshape, (ufuncAtRun (fun a b => max a b)
        (List.replicate (prodL tshape) (-sentinel))
        (ndPairs tshape (chunk (ind.shape.getLastD 0) ind.data)
          (chunk (prodL (tshape.drop (ind.shape.getLastD 0))) upd.data))).map
        (fun v => if v = -sentinel then 0 else v)⟩, ?_, rfl, ?_, fun j hj => ?_⟩
      · simp [scatter_nd, assertFailNd, hk2, hmod2, hok2]
      · rw [List.length_map, ufuncAtRun_length, List.length_replicate]
      · rw [getD_map_lt _ _ _
            (by rw [ufuncAtRun_length, List.length_replicate]; exact hj),
          ufuncAtRun_getD _ _ _ _ (by rw [List.length_replicate]; exact hj),
          getD_replicate_lt _ _ _ hj]

/-- Witness for C3 at the spec's example (`"max"`, `indices = [0,0,1]`,
`updates = [3,5,7]`, `size = 2`) and at a small `scatter_nd` instance. -/
theorem C3_witness :
    scatterOk 2 [0, 0, 1] [3, 5, 7] = true ∧
    (∃ R, scatter_flat [0, 0, 1] [3, 5, 7] (some 2) "max" none = (.ok R, none)) ∧
    (∃ R, scatter_nd ⟨[1, 1], [0]⟩ ⟨[1], [3]⟩ (some [2]) "min" none
      = (.ok R, none)) := by
  have hf := ((C3_minmax_sentinel.1 2 [0, 0, 1] [3, 5, 7] (by decide)).2)
  obtain ⟨R, hR, -, -⟩ := hf
  have hn := (C3_minmax_sentinel.2.1 ⟨[1, 1], [0]⟩ ⟨[1], [3]⟩ [2]
    (by decide) (by decide) (by decide)).1
  obtain ⟨R2, hR2, -, -, -⟩ := hn
  exact ⟨by decide, ⟨R, hR⟩, ⟨R2, hR2⟩⟩

theorem zip_map_self (l : List ℕ) (f : ℕ → ℤ) :
    l.zip (l.map f) = l.map (fun i => (i, f i)) := by
  induction l with
  | nil => rfl
  | cons x xs ih => simp only [List.map_cons, List.zip_cons_cons, ih]

theorem getLastD_all_eq (l : List ℤ) (v : ℤ) (hne : l ≠ [])
    (h : ∀ x ∈ l, x = v) : ∀ d, l.getLastD d = v := by
  induction l with
  | nil => exact absurd rfl hne
  | cons x xs ih =>
    intro d
    rw [List.getLastD_cons]
    cases xs with
    | nil => simpa using h x (by simp)
    | cons y ys =>
      exact ih (by simp) (fun z hz => h z (List.mem_cons_of_mem _ hz)) x

/-- C8: gathering a 1-D buffer at in-range indices and scattering the
gathered values back with `"replace"` at the same indices (size equal
to the buffer's length, no output buffer) yields a buffer holding the
originally selected values at those index positions. -/
theorem C8_gather_scatter_replace (params : List ℤ) (indices : List ℕ)
    (hall : indices.all (fun i => i < params.length) = true) :
    ∃ g R, gather params indices (-1) none = (.ok g, none)
      ∧ scatter_flat indices g (some params.length) "replace" none = (.ok R, none)
      ∧ ∀ tpos, tpos < indices.length →
          R.getD (indices.getD tpos 0) 0 = params.getD (indices.getD tpos 0) 0 := by
  refine ⟨indices.map (fun i => params.getD i 0),
    ufuncAtRun (fun _ u => u) (List.replicate params.length 0)
      (indices.zip (indices.map (fun i => params.getD i 0))), ?_, ?_, ?_⟩
  · simp [gather, hall]
  · have hok : scatterOk params.length indices
        (indices.map (fun i => params.getD i 0)) = true := by
      simp [scatterOk, hall]
    simp [scatter_flat, assertFailFlat]
    simpa using hok
  · intro tpos htpos
    have hjmem : indices.getD tpos 0 ∈ indices := by
      rw [List.getD_eq_getElem _ _ htpos]
      exact List.getElem_mem htpos
    have hjlt : indices.getD tpos 0 < params.length := by
      simpa using List.all_eq_true.mp hall _ hjmem
    rw [ufuncAtRun_getD _ _ _ _ (by rw [List.length_replicate]; exact hjlt),
      foldl_last_eq, getD_replicate_lt _ _ _ hjlt, zip_map_self]
    have hvals : ∀ x ∈ valuesAt (indices.map (fun i => (i, params.getD i 0)))
        (indices.getD tpos 0), x = params.getD (indices.getD tpos 0) 0 := by
      intro x hx
      simp only [valuesAt, List.mem_map, List.mem_filter] at hx
      obtain ⟨p, ⟨⟨i, hmem, hip⟩, hpj⟩, hpx⟩ := hx
      subst hip
      simp only [beq_iff_eq] at hpj
      rw [← hpx, ← hpj]
    have hne : valuesAt (indices.map (fun i => (i, params.getD i 0)))
        (indices.getD tpos 0) ≠ [] := by
      have hmem2 : (indices.getD tpos 0, params.getD (indices.getD tpos 0) 0)
          ∈ (indices.map (fun i => (i, params.getD i 0))).filter
            (fun p => p.1 == indices.getD tpos 0) := by
        rw [List.mem_filter]
        exact ⟨List.mem_map_of_mem _ hjmem, by simp⟩
      exact fun hemp => by
        have := List.mem_map_of_mem Prod.snd hmem2
        rw [show ((indices.map (fun i => (i, params.getD i 0))).filter
            (fun p => p.1 == indices.getD tpos 0)).map Prod.snd
            = valuesAt (indices.map (fun i => (i, params.getD i 0)))
              (indices.getD tpos 0) from rfl, hemp] at this
        exact List.not_mem_nil _ this
    exact getLastD_all_eq _ _ hne hvals _

/-- Witness for C8: gather `[5,6,7]` at `[2,0]`, scatter back with
`"replace"`; positions `2` and `0` hold their original values. -/
theorem C8_witness :
    (([2, 0] : List ℕ).all (fun i => i < ([5, 6, 7] : List ℤ).length) = true) ∧
    (∃ g R, gather [5, 6, 7] [2, 0] (-1) none = (.ok g, none)
      ∧ scatter_flat [2, 0] g (some ([5, 6, 7] : List ℤ).length) "replace" none
        = (.ok R, none)
      ∧ ∀ tpos, tpos < ([2, 0] : List ℕ).length →
          R.getD (([2, 0] : List ℕ).getD tpos 0) 0
            = ([5, 6, 7] : List ℤ).getD (([2, 0] : List ℕ).getD tpos 0) 0) :=
  ⟨by decide, C8_gather_scatter_replace [5, 6, 7] [2, 0] (by decide)⟩

theorem toInt32_of_lt (n : ℕ) (h : (n : ℤ) < 2147483648) : toInt32 n = (n : ℤ) := by
  have h1 : (n : ℤ) % 4294967296 = n := Int.emod_eq_of_lt (by positivity) (by omega)
  simp only [toInt32, h1]
  rw [if_pos h]

theorem npTake_in_range (data : List ℤ) (n : ℕ) (h : n < data.length) :
    npTake data ((n : ℕ) : ℤ) = some (data.getD n 0) := by
  rw [npTake, if_pos (by constructor <;> omega)]
  simp

theorem flatten_length_const {α : Type} (rows : List (List α)) (k : ℕ)
    (h : ∀ r ∈ rows, r.length = k) : rows.flatten.length = rows.length * k := by
  induction rows with
  | nil => simp
  | cons r rest ih =>
    rw [List.flatten_cons, List.length_append, h r (by simp),
      ih (fun x hx => h x (List.mem_cons_of_mem _ hx)), List.length_cons]
    ring

theorem chunk_flatten (rows : List (List α)) (k : ℕ) (hk : k ≠ 0)
    (h : ∀ r ∈ rows, r.length = k) : chunk k rows.flatten = rows := by
  induction rows with
  | nil => simp [chunk_nil]
  | cons r rest ih =>
    rw [List.flatten_cons, chunk_block k hk r rest.flatten (h r (by simp)),
      ih (fun x hx => h x (List.mem_cons_of_mem _ hx))]

theorem npTakeAll_append (data : List ℤ) (l1 l2 v1 v2 : List ℤ)
    (h1 : npTakeAll data l1 = some v1) (h2 : npTakeAll data l2 = some v2) :
    npTakeAll data (l1 ++ l2) = some (v1 ++ v2) := by
  induction l1 generalizing v1 with
  | nil =>
    simp only [npTakeAll, Option.some.injEq] at h1
    simpa [← h1] using h2
  | cons x xs ih =>
    cases hx : npTake data x with
    | none => simp [npTakeAll, hx] at h1
    | some v =>
      cases hxs : npTakeAll data xs with
      | none => simp [npTakeAll, hx, hxs] at h1
      | some vs =>
        simp only [npTakeAll, hx, hxs, Option.some.injEq] at h1
        rw [List.cons_append]
        simp only [npTakeAll, hx, ih vs hxs]
        rw [← h1]
        simp

theorem npTakeAll_block (data : List ℤ) (B : ℕ) (hsmall : data.length ≤ 2147483648) :
    ∀ (base : ℕ), base + B ≤ data.length →
    npTakeAll data ((List.range B).map (fun t => toInt32 (base + t)))
      = some ((data.drop base).take B) := by
  induction B with
  | zero => intro base hle; simp [npTakeAll]
  | succ n ih =>
    intro base hle
    rw [List.range_succ, List.map_append, List.map_cons, List.map_nil]
    show npTakeAll data ((List.range n).map (fun t => toInt32 (base + t))
        ++ [toInt32 (base + n)]) = some ((data.drop base).take (n + 1))
    have hlt : base + n < data.length := by omega
    have hsing : npTakeAll data [toInt32 (base + n)]
        = some [data.getD (base + n) 0] := by
      rw [show toInt32 (base + n) = (((base + n : ℕ)) : ℤ) from
        toInt32_of_lt _ (by exact_mod_cast (by omega : base + n < 2147483648))]
      simp only [npTakeAll, npTake_in_range data (base + n) hlt]
    refine Eq.trans (npTakeAll_append data _ _ _ _ (ih base (by omega)) hsing) ?_
    refine congrArg some ?_
    rw [List.take_succ]
    refine congrArg (fun z => List.take n (List.drop base data) ++ z) ?_
    rw [List.getElem?_drop, List.getElem?_eq_getElem hlt]
    simp [List.getD_eq_getElem _ _ hlt, List.getElem?_eq_getElem hlt]

theorem npTakeAll_rows (data : List ℤ) (ps : List ℕ) (k : ℕ)
    (rows : List (List ℕ))
    (hwf : data.length = prodL ps)
    (hsmall : prodL ps ≤ 2147483648)
    (hlen : ∀ r ∈ rows, r.length = k)
    (hcoords : ∀ r ∈ rows, coordsOk ps r = true) :
    npTakeAll data (rows.flatMap (fun row => (List.range (prodL (ps.drop k))).map
        (fun t => toInt32 (rowBase ps row + t))))
      = some (rows.flatMap (fun row =>
          (data.drop (rowBase ps row)).take (prodL (ps.drop k)))) := by
  induction rows with
  | nil => simp [npTakeAll]
  | cons r rest ih =>
    rw [List.flatMap_cons, List.flatMap_cons]
    apply npTakeAll_append
    · apply npTakeAll_block data (prodL (ps.drop k)) (by omega) (rowBase ps r)
      have hb := rowBase_block_le ps r (hcoords r (by simp))
      rw [hlen r (by simp)] at hb
      omega
    · exact ih (fun x hx => hlen x (List.mem_cons_of_mem _ hx))
        (fun x hx => hcoords x (List.mem_cons_of_mem _ hx))

theorem gather_nd_slices (params : Tensor) (k : ℕ) (leadShape : List ℕ)
    (rows : List (List ℕ))
    (hwf : params.data.length = prodL params.shape)
    (hsmall : prodL params.shape ≤ 2147483648)
    (hk : k ≠ 0) (hkr : k ≤ params.shape.length)
    (hlen : ∀ r ∈ rows, r.length = k)
    (hcoords : ∀ r ∈ rows, coordsOk params.shape r = true) :
    gather_nd params ⟨leadShape ++ [k], rows.flatten⟩ none
      = (.ok ⟨leadShape ++ params.shape.drop k,
          rows.flatMap (fun row =>
            (params.data.drop (rowBase params.shape row)).take
              (prodL (params.shape.drop k)))⟩, none) := by
  have hlast : (leadShape ++ [k]).getLastD 0 = k := by simp
  have hmod : rows.flatten.length % k = 0 := by
    rw [flatten_length_const rows k hlen, Nat.mul_mod_left]
  have hguard : ¬ (max params.shape.length 1 < k) := by omega
  have hchunk : chunk k rows.flatten = rows := chunk_flatten rows k hk hlen
  have hvals := npTakeAll_rows params.data params.shape k rows hwf hsmall hlen
    hcoords
  have hmod2 : (List.map List.length rows).sum % k = 0 := by
    rwa [List.length_flatten] at hmod
  simp only [gather_nd, hlast]
  rw [if_neg (by simp [hk, hmod2]), if_neg (by simpa using hguard), hchunk, hvals]
  simp

/-- C7 as amended: for every params buffer and index tensor whose last
axis has size `k` (with `0 < k ≤` the rank of params, all coordinate
rows in range, and — forced by the int32 cast of the flat offsets in
the source — a total params size of at most `2^31`), `gather_nd`
returns a buffer of shape `indices.shape[:-1] ++ params.shape[k:]` in
which each index row selects the full trailing slice of params
addressed by its `k` leading coordinates. -/
theorem C7_amended_gather_nd (params : Tensor) (k : ℕ) (leadShape : List ℕ)
    (rows : List (List ℕ))
    (hwf : params.data.length = prodL params.shape)
    (hsmall : prodL params.shape ≤ 2147483648)
    (hk : k ≠ 0) (hkr : k ≤ params.shape.length)
    (hlen : ∀ r ∈ rows, r.length = k)
    (hcoords : ∀ r ∈ rows, coordsOk params.shape r = true) :
    gather_nd params ⟨leadShape ++ [k], rows.flatten⟩ none
      = (.ok ⟨leadShape ++ params.shape.drop k,
          rows.flatMap (fun row =>
            (params.data.drop (rowBase params.shape row)).take
              (prodL (params.shape.drop k)))⟩, none) :=
  gather_nd_slices params k leadShape rows hwf hsmall hk hkr hlen hcoords

/-- Witness for the amended C7: gathering from a `2 x 2` buffer with the
single index row `[1]` returns the second row `[3, 4]` with result
shape `[1, 2]`. -/
theorem C7_witness :
    ((Tensor.mk [2, 2] [1, 2, 3, 4]).data.length
        = prodL (Tensor.mk [2, 2] [1, 2, 3, 4]).shape) ∧
    gather_nd ⟨[2, 2], [1, 2, 3, 4]⟩ ⟨[1] ++ [1], ([[1]] : List (List ℕ)).flatten⟩
        none
      = (.ok ⟨[1] ++ ([2, 2] : List ℕ).drop 1,
          ([[1]] : List (List ℕ)).flatMap (fun row =>
            (([1, 2, 3, 4] : List ℤ).drop (rowBase [2, 2] row)).take
              (prodL (([2, 2] : List ℕ).drop 1)))⟩, none) :=
  ⟨by decide, C7_amended_gather_nd ⟨[2, 2], [1, 2, 3, 4]⟩ 1 [1] [[1]] (by decide)
    (by decide) (by decide) (by decide) (by decide) (by decide)⟩

theorem gnd_overflow_eval (P : Tensor) (ind : NatTensor) (v : ℤ)
    (hPs : P.shape = [2147483649])
    (hIs : ind.shape = [1, 1]) (hId : ind.data = [2147483648])
    (hv : npTakeAll P.data [toInt32 2147483648] = some [v]) :
    gather_nd P ind none = (.ok ⟨[1], [v]⟩, none) := by
  have hlast : ind.shape.getLastD 0 = 1 := by
    rw [hIs]
    decide
  simp only [gather_nd, hlast]
  rw [if_neg (by simp [hId])]
  rw [if_neg (by simp [hPs])]
  rw [hId, hPs, hIs]
  rw [show chunk 1 [2147483648] = [[2147483648]] from by decide]
  rw [show (([[2147483648]] : List (List ℕ)).flatMap fun row =>
      List.map (fun t => toInt32 (rowBase [2147483649] row + t))
        (List.range (prodL (List.drop 1 [2147483649])))) = [toInt32 2147483648]
    from by decide]
  rw [hv]
  simp

theorem gnd_overflow_evalL (L : List ℤ) (v : ℤ)
    (hv : npTakeAll L [toInt32 2147483648] = some [v]) :
    gather_nd ⟨[2147483649], L⟩ ⟨[1, 1], [2147483648]⟩ none
      = (.ok ⟨[1], [v]⟩, none) :=
  gnd_overflow_eval ⟨[2147483649], L⟩ ⟨[1, 1], [2147483648]⟩ v rfl rfl rfl hv

/-- Counterexample to C7 as stated: on a 1-D params buffer of
`2^31 + 1` elements holding `0, 1, 2, ...` and the single in-range
index row `[2^31]` (`k = 1 ≤` rank, coordinate in range), the claim
mandates the trailing slice at that coordinate, `[2^31]`; but the
source casts the flat offset to int32, so `2^31` wraps to `-2^31`,
`np.take` resolves the negative index from the end of the buffer, and
`gather_nd` returns `[1]` instead. -/
theorem C7_counterexample :
    gather_nd ⟨[2147483649], (List.range 2147483649).map Int.ofNat⟩
        ⟨[1, 1], [2147483648]⟩ none
      = (.ok ⟨[1], [1]⟩, none)
    ∧ ((List.range 2147483649).map Int.ofNat).getD 2147483648 0 = 2147483648
    ∧ (1 : ℤ) ≠ 2147483648 := by
  have hL : ((List.range 2147483649).map Int.ofNat).length = 2147483649 := by
    rw [List.length_map, List.length_range]
  have hv1 : ((List.range 2147483649).map Int.ofNat).getD 1 0 = 1 := by
    rw [List.getD_eq_getElem?_getD, List.getElem?_map,
      List.getElem?_range (by norm_num)]
    rfl
  have htake : npTake ((List.range 2147483649).map Int.ofNat) (-2147483648)
      = some 1 := by
    rw [npTake, hL]
    rw [if_neg (by norm_num), if_pos (by norm_num)]
    rw [show (2147483649 - (-(-2147483648 : ℤ)).toNat) = 1 from by decide]
    rw [hv1]
  have hflat : npTakeAll ((List.range 2147483649).map Int.ofNat)
      [toInt32 2147483648] = some [1] := by
    rw [show toInt32 2147483648 = -2147483648 from by norm_num [toInt32]]
    rw [npTakeAll]
    rw [htake]
    rw [show npTakeAll ((List.range 2147483649).map Int.ofNat) [] = some []
      from by rw [npTakeAll]]
  refine ⟨gnd_overflow_evalL ((List.range 2147483649).map Int.ofNat) 1 hflat,
    ?_, by decide⟩
  rw [List.getD_eq_getElem?_getD, List.getElem?_map,
    List.getElem?_range (by norm_num)]
  rfl

theorem prodL_append (a b : List ℕ) : prodL (a ++ b) = prodL a * prodL b := by
  induction a with
  | nil => simp [prodL]
  | cons x xs ih =>
    show x * prodL (xs ++ b) = x * prodL xs * prodL b
    rw [ih]; ring

theorem prodL_take_drop (s : List ℕ) (k : ℕ) :
    prodL s = prodL (s.take k) * prodL (s.drop k) := by
  conv_lhs => rw [← List.take_append_drop k s]
  exact prodL_append _ _

theorem coordsOk_length_le (s row : List ℕ) (h : coordsOk s row = true) :
    row.length ≤ s.length := by
  induction row generalizing s with
  | nil => simp
  | cons i r ih =>
    cases s with
    | nil => simp [coordsOk] at h
    | cons d ds =>
      simp only [coordsOk, Bool.and_eq_true, decide_eq_true_eq] at h
      have := ih ds h.2
      simp only [List.length_cons]
      omega

theorem coordsOk_take (s row : List ℕ) (h : coordsOk s row = true) :
    coordsOk (s.take row.length) row = true := by
  induction row generalizing s with
  | nil => rfl
  | cons i r ih =>
    cases s with
    | nil => simp [coordsOk] at h
    | cons d ds =>
      simp only [coordsOk, Bool.and_eq_true, decide_eq_true_eq] at h
      show coordsOk (d :: ds.take r.length) (i :: r) = true
      simp only [coordsOk, Bool.and_eq_true, decide_eq_true_eq]
      exact ⟨h.1, ih ds h.2⟩

theorem rowBase_split (row : List ℕ) : ∀ (s : List ℕ),
    rowBase s row = rowBase (s.take row.length) row * prodL (s.drop row.length) := by
  induction row with
  | nil => intro s; simp [rowBase]
  | cons i r ih =>
    intro s
    cases s with
    | nil =>
      simp only [List.take_nil, List.drop_nil]
      rw [show prodL ([] : List ℕ) = 1 from rfl, Nat.mul_one]
    | cons d ds =>
      show i * prodL ds + rowBase ds r
        = (i * prodL (ds.take r.length) + rowBase (ds.take r.length) r)
          * prodL (ds.drop r.length)
      rw [prodL_take_drop ds r.length, ih ds, Nat.add_mul]
      ring

theorem rowBase_take_lt (s row : List ℕ) (h : coordsOk s row = true) :
    rowBase (s.take row.length) row < prodL (s.take row.length) := by
  have hc := coordsOk_take s row h
  have hb := rowBase_block_le (s.take row.length) row hc
  have hdrop : (s.take row.length).drop row.length = [] := by
    apply List.drop_eq_nil_of_le
    rw [List.length_take]
    exact min_le_left _ _
  rw [hdrop] at hb
  rw [show prodL ([] : List ℕ) = 1 from rfl] at hb
  omega

theorem rowBase_full_inj : ∀ (s r1 r2 : List ℕ), coordsOk s r1 = true →
    coordsOk s r2 = true → r1.length = s.length → r2.length = s.length →
    rowBase s r1 = rowBase s r2 → r1 = r2 := by
  intro s
  induction s with
  | nil =>
    intro r1 r2 _ _ h1 h2 _
    rw [List.eq_nil_of_length_eq_zero h1, List.eq_nil_of_length_eq_zero h2]
  | cons d ds ih =>
    intro r1 r2 hc1 hc2 h1 h2 heq
    cases r1 with
    | nil => simp at h1
    | cons i1 t1 =>
      cases r2 with
      | nil => simp at h2
      | cons i2 t2 =>
        simp only [coordsOk, Bool.and_eq_true, decide_eq_true_eq] at hc1 hc2
        simp only [List.length_cons] at h1 h2
        have hl1 : t1.length = ds.length := by omega
        have hl2 : t2.length = ds.length := by omega
        have hx : rowBase ds t1 < prodL ds := by
          have hb := rowBase_block_le ds t1 hc1.2
          rw [hl1, List.drop_length] at hb
          rw [show prodL ([] : List ℕ) = 1 from rfl] at hb
          omega
        have hy : rowBase ds t2 < prodL ds := by
          have hb := rowBase_block_le ds t2 hc2.2
          rw [hl2, List.drop_length] at hb
          rw [show prodL ([] : List ℕ) = 1 from rfl] at hb
          omega
        have hP : 0 < prodL ds := by omega
        have heq2 : i1 * prodL ds + rowBase ds t1
            = i2 * prodL ds + rowBase ds t2 := heq
        have e1 : (i1 * prodL ds + rowBase ds t1) / prodL ds = i1 := by
          rw [Nat.mul_comm i1, Nat.mul_add_div hP, Nat.div_eq_of_lt hx,
            Nat.add_zero]
        have e2 : (i2 * prodL ds + rowBase ds t2) / prodL ds = i2 := by
          rw [Nat.mul_comm i2, Nat.mul_add_div hP, Nat.div_eq_of_lt hy,
            Nat.add_zero]
        have hi : i1 = i2 := by rw [← e1, heq2, e2]
        subst hi
        have ht : rowBase ds t1 = rowBase ds t2 := Nat.add_left_cancel heq2
        rw [ih t1 t2 hc1.2 hc2.2 hl1 hl2 ht]

theorem block_disjoint (B q1 q2 t0 : ℕ) (ht : t0 < B) (hne : q1 ≠ q2) :
    ¬ (q2 * B ≤ q1 * B + t0 ∧ q1 * B + t0 < q2 * B + B) := by
  rintro ⟨hlo, hhi⟩
  have hB : 0 < B := by omega
  have e1 : (q1 * B + t0) / B = q1 := by
    rw [Nat.mul_comm q1, Nat.mul_add_div hB, Nat.div_eq_of_lt ht, Nat.add_zero]
  have e2 : (q1 * B + t0) / B = q2 := by
    apply Nat.div_eq_of_lt_le hlo
    rw [Nat.succ_mul]
    exact hhi
  exact hne (e1.symm.trans e2)

theorem filter_flatMap_eq {α β : Type} (l : List α) (g : α → List β)
    (q : β → Bool) :
    (l.flatMap g).filter q = l.flatMap (fun x => (g x).filter q) := by
  induction l with
  | nil => rfl
  | cons a l ih => rw [List.flatMap_cons, List.flatMap_cons, List.filter_append, ih]

theorem map_flatMap_eq {α β γ : Type} (l : List α) (g : α → List β) (f : β → γ) :
    (l.flatMap g).map f = l.flatMap (fun x => (g x).map f) := by
  induction l with
  | nil => rfl
  | cons a l ih => rw [List.flatMap_cons, List.flatMap_cons, List.map_append, ih]

theorem flatMap_nil_of {α β : Type} (l : List α) (g : α → List β)
    (h : ∀ x ∈ l, g x = []) : l.flatMap g = [] := by
  induction l with
  | nil => rfl
  | cons a l ih =>
    rw [List.flatMap_cons, h a (by simp), List.nil_append,
      ih (fun x hx => h x (List.mem_cons_of_mem _ hx))]

theorem flatten_nil_of {α : Type} (l : List (List α)) (h : ∀ x ∈ l, x = []) :
    l.flatten = [] := by
  induction l with
  | nil => rfl
  | cons a l ih =>
    rw [List.flatten_cons, h a (by simp), List.nil_append,
      ih (fun x hx => h x (List.mem_cons_of_mem _ hx))]

theorem flatMap_eq_flatten_map {α β : Type} (l : List α) (g : α → List β) :
    l.flatMap g = (l.map g).flatten := by
  induction l with
  | nil => rfl
  | cons a l ih => rw [List.flatMap_cons, List.map_cons, List.flatten_cons, ih]

theorem flatMap_eq_single {α β : Type} (l : List α) (g : α → List β) (i : ℕ)
    (hi : i < l.length)
    (h0 : ∀ j, (hj : j < l.length) → j ≠ i → g (l.get ⟨j, hj⟩) = []) :
    l.flatMap g = g (l.get ⟨i, hi⟩) := by
  induction l generalizing i with
  | nil => simp at hi
  | cons a l ih =>
    cases i with
    | zero =>
      rw [List.flatMap_cons]
      have hrest : l.flatMap g = [] := by
        apply flatMap_nil_of
        intro x hx
        obtain ⟨⟨j, hj⟩, hget⟩ := List.mem_iff_get.mp hx
        have hz := h0 (j + 1) (by simpa using Nat.succ_lt_succ hj) (by omega)
        rw [List.get_cons_succ] at hz
        rw [hget] at hz
        exact hz
      rw [hrest, List.append_nil]
      rfl
    | succ j =>
      rw [List.flatMap_cons]
      have ha : g a = [] := by
        have hz := h0 0 (by simp) (by omega)
        simpa using hz
      rw [ha, List.nil_append]
      have hj : j < l.length := by simpa using Nat.lt_of_succ_lt_succ hi
      rw [ih j hj (fun jj hjj hne => by
        have hz := h0 (jj + 1) (by simpa using Nat.succ_lt_succ hjj) (by omega)
        rwa [List.get_cons_succ] at hz)]
      rfl

theorem range_shift_filter (n base p : ℕ) :
    (List.range n).filter (fun t => base + t == p)
      = if base ≤ p ∧ p < base + n then [p - base] else [] := by
  induction n with
  | zero =>
    rw [List.range_zero, List.filter_nil, if_neg]
    omega
  | succ n ih =>
    rw [List.range_succ, List.filter_append, ih]
    by_cases hp : base + n = p
    · rw [if_neg (by omega), List.nil_append]
      rw [show (List.filter (fun t => base + t == p) [n]) = [n] from by
        simp [List.filter_cons, hp]]
      rw [if_pos (by omega)]
      rw [show p - base = n from by omega]
    · rw [show (List.filter (fun t => base + t == p) [n]) = [] from by
        simp [List.filter_cons, hp]]
      rw [List.append_nil]
      by_cases hq : base ≤ p ∧ p < base + n
      · rw [if_pos hq, if_pos (by omega)]
      · rw [if_neg hq, if_neg (by omega)]

theorem ndRow_filter (base : ℕ) (b : List ℤ) (p : ℕ) :
    (((List.range b.length).map (fun t => (base + t, b.getD t 0))).filter
        (fun pr => pr.1 == p))
      = if base ≤ p ∧ p < base + b.length
        then [(p, b.getD (p - base) 0)] else [] := by
  rw [List.filter_map]
  have hpred : ((fun pr : ℕ × ℤ => pr.1 == p)
      ∘ (fun t : ℕ => ((base + t : ℕ), b.getD t 0)))
      = fun t => base + t == p := by
    funext t; rfl
  rw [hpred, range_shift_filter]
  by_cases h : base ≤ p ∧ p < base + b.length
  · rw [if_pos h, if_pos h, List.map_cons, List.map_nil]
    rw [show base + (p - base) = p from by omega]
  · rw [if_neg h, if_neg h, List.map_nil]

theorem valuesAt_ndPairs_single
    (tshape : List ℕ) (k : ℕ) (rows : List (List ℕ)) (ublocks : List (List ℤ))
    (hrl : ∀ r ∈ rows, r.length = k)
    (hcoords : ∀ r ∈ rows, coordsOk tshape r = true)
    (hnodup : rows.Nodup)
    (hbl : ∀ b ∈ ublocks, b.length = prodL (tshape.drop k))
    (hbc : ublocks.length = rows.length)
    (i t0 : ℕ) (hi : i < rows.length) (hiu : i < ublocks.length)
    (ht : t0 < prodL (tshape.drop k)) :
    valuesAt (ndPairs tshape rows ublocks)
        (rowBase tshape (rows.get ⟨i, hi⟩) + t0)
      = [(ublocks.get ⟨i, hiu⟩).getD t0 0] := by
  have hiz : i < (rows.zip ublocks).length := by
    rw [List.length_zip, hbc, min_self]; exact hi
  have hget_i : (rows.zip ublocks).get ⟨i, hiz⟩
      = (rows.get ⟨i, hi⟩, ublocks.get ⟨i, hiu⟩) := by
    simp [List.get_eq_getElem, List.getElem_zip]
  have hri_mem : rows.get ⟨i, hi⟩ ∈ rows := List.mem_iff_get.mpr ⟨⟨i, hi⟩, rfl⟩
  have hbi_mem : ublocks.get ⟨i, hiu⟩ ∈ ublocks :=
    List.mem_iff_get.mpr ⟨⟨i, hiu⟩, rfl⟩
  have hri_len : (rows.get ⟨i, hi⟩).length = k := hrl _ hri_mem
  have hri_co : coordsOk tshape (rows.get ⟨i, hi⟩) = true := hcoords _ hri_mem
  have hbi_len : (ublocks.get ⟨i, hiu⟩).length = prodL (tshape.drop k) :=
    hbl _ hbi_mem
  have hk_le : k ≤ tshape.length := by
    have h := coordsOk_length_le tshape _ hri_co
    rwa [hri_len] at h
  have hlen_tk : (tshape.take k).length = k := by
    rw [List.length_take]; exact min_eq_left hk_le
  have hsi : rowBase tshape (rows.get ⟨i, hi⟩)
      = rowBase (tshape.take k) (rows.get ⟨i, hi⟩) * prodL (tshape.drop k) := by
    have h := rowBase_split (rows.get ⟨i, hi⟩) tshape
    rwa [hri_len] at h
  unfold valuesAt ndPairs
  rw [filter_flatMap_eq, map_flatMap_eq]
  refine Eq.trans (flatMap_eq_single _ _ i hiz ?_) ?_
  · intro j hj hne
    have hjr : j < rows.length := by
      rw [List.length_zip, hbc, min_self] at hj; exact hj
    have hju : j < ublocks.length := by rw [hbc]; exact hjr
    have hget_j : (rows.zip ublocks).get ⟨j, hj⟩
        = (rows.get ⟨j, hjr⟩, ublocks.get ⟨j, hju⟩) := by
      simp [List.get_eq_getElem, List.getElem_zip]
    rw [hget_j]
    show (((List.range (ublocks.get ⟨j, hju⟩).length).map
        (fun t => (rowBase tshape (rows.get ⟨j, hjr⟩) + t,
          (ublocks.get ⟨j, hju⟩).getD t 0))).filter
        (fun pr => pr.1 == rowBase tshape (rows.get ⟨i, hi⟩) + t0)).map Prod.snd
      = []
    rw [ndRow_filter]
    have hrj_mem : rows.get ⟨j, hjr⟩ ∈ rows := List.mem_iff_get.mpr ⟨⟨j, hjr⟩, rfl⟩
    have hbj_mem : ublocks.get ⟨j, hju⟩ ∈ ublocks :=
      List.mem_iff_get.mpr ⟨⟨j, hju⟩, rfl⟩
    have hrj_len : (rows.get ⟨j, hjr⟩).length = k := hrl _ hrj_mem
    have hrj_co : coordsOk tshape (rows.get ⟨j, hjr⟩) = true := hcoords _ hrj_mem
    have hbj_len : (ublocks.get ⟨j, hju⟩).length = prodL (tshape.drop k) :=
      hbl _ hbj_mem
    have hsj : rowBase tshape (rows.get ⟨j, hjr⟩)
        = rowBase (tshape.take k) (rows.get ⟨j, hjr⟩) * prodL (tshape.drop k) := by
      have h := rowBase_split (rows.get ⟨j, hjr⟩) tshape
      rwa [hrj_len] at h
    have hqne : rowBase (tshape.take k) (rows.get ⟨i, hi⟩)
        ≠ rowBase (tshape.take k) (rows.get ⟨j, hjr⟩) := by
      intro hq
      have hco_i : coordsOk (tshape.take k) (rows.get ⟨i, hi⟩) = true := by
        have h := coordsOk_take tshape _ hri_co
        rwa [hri_len] at h
      have hco_j : coordsOk (tshape.take k) (rows.get ⟨j, hjr⟩) = true := by
        have h := coordsOk_take tshape _ hrj_co
        rwa [hrj_len] at h
      have hrow := rowBase_full_inj (tshape.take k) _ _ hco_i hco_j
        (by rw [hri_len, hlen_tk]) (by rw [hrj_len, hlen_tk]) hq
      have hfin : (⟨i, hi⟩ : Fin rows.length) = ⟨j, hjr⟩ :=
        (List.Nodup.get_inj_iff hnodup).mp hrow
      exact hne (by simpa using (congrArg Fin.val hfin).symm)
    have hcond : ¬ (rowBase tshape (rows.get ⟨j, hjr⟩)
          ≤ rowBase tshape (rows.get ⟨i, hi⟩) + t0
        ∧ rowBase tshape (rows.get ⟨i, hi⟩) + t0
          < rowBase tshape (rows.get ⟨j, hjr⟩)
            + (ublocks.get ⟨j, hju⟩).length) := by
      rw [hbj_len, hsj, hsi]
      exact block_disjoint (prodL (tshape.drop k)) _ _ t0 ht hqne
    rw [if_neg hcond, List.map_nil]
  · rw [hget_i]
    show (((List.range (ublocks.get ⟨i, hiu⟩).length).map
        (fun t => (rowBase tshape (rows.get ⟨i, hi⟩) + t,
          (ublocks.get ⟨i, hiu⟩).getD t 0))).filter
        (fun pr => pr.1 == rowBase tshape (rows.get ⟨i, hi⟩) + t0)).map Prod.snd
      = [(ublocks.get ⟨i, hiu⟩).getD t0 0]
    rw [ndRow_filter]
    rw [if_pos ⟨Nat.le_add_right _ _, by rw [hbi_len]; omega⟩]
    rw [List.map_cons, List.map_nil]
    rw [show rowBase tshape (rows.get ⟨i, hi⟩) + t0
        - rowBase tshape (rows.get ⟨i, hi⟩) = t0 from by omega]

theorem replace_scatter_getD (tshape : List ℕ) (k : ℕ) (rows : List (List ℕ))
    (ublocks : List (List ℤ))
    (hrl : ∀ r ∈ rows, r.length = k)
    (hcoords : ∀ r ∈ rows, coordsOk tshape r = true)
    (hnodup : rows.Nodup)
    (hbl : ∀ b ∈ ublocks, b.length = prodL (tshape.drop k))
    (hbc : ublocks.length = rows.length)
    (i t0 : ℕ) (hi : i < rows.length) (hiu : i < ublocks.length)
    (ht : t0 < prodL (tshape.drop k)) :
    (ufuncAtRun (fun _ u => u) (List.replicate (prodL tshape) 0)
        (ndPairs tshape rows ublocks)).getD
        (rowBase tshape (rows.get ⟨i, hi⟩) + t0) 0
      = (ublocks.get ⟨i, hiu⟩).getD t0 0 := by
  have hri_mem : rows.get ⟨i, hi⟩ ∈ rows := List.mem_iff_get.mpr ⟨⟨i, hi⟩, rfl⟩
  have hri_len : (rows.get ⟨i, hi⟩).length = k := hrl _ hri_mem
  have hri_co : coordsOk tshape (rows.get ⟨i, hi⟩) = true := hcoords _ hri_mem
  have hsi : rowBase tshape (rows.get ⟨i, hi⟩)
      = rowBase (tshape.take k) (rows.get ⟨i, hi⟩) * prodL (tshape.drop k) := by
    have h := rowBase_split (rows.get ⟨i, hi⟩) tshape
    rwa [hri_len] at h
  have hq_lt : rowBase (tshape.take k) (rows.get ⟨i, hi⟩)
      < prodL (tshape.take k) := by
    have h := rowBase_take_lt tshape _ hri_co
    rwa [hri_len] at h
  have hpN : rowBase tshape (rows.get ⟨i, hi⟩) + t0 < prodL tshape := by
    rw [prodL_take_drop tshape k, hsi]
    calc rowBase (tshape.take k) (rows.get ⟨i, hi⟩) * prodL (tshape.drop k) + t0
        < rowBase (tshape.take k) (rows.get ⟨i, hi⟩) * prodL (tshape.drop k)
          + prodL (tshape.drop k) := Nat.add_lt_add_left ht _
      _ = (rowBase (tshape.take k) (rows.get ⟨i, hi⟩) + 1)
          * prodL (tshape.drop k) := by ring
      _ ≤ prodL (tshape.take k) * prodL (tshape.drop k) :=
          Nat.mul_le_mul_right _ hq_lt
  rw [ufuncAtRun_getD _ _ _ _ (by rw [List.length_replicate]; exact hpN)]
  rw [getD_replicate_lt _ _ _ hpN]
  rw [valuesAt_ndPairs_single tshape k rows ublocks hrl hcoords hnodup hbl hbc
    i t0 hi hiu ht]
  rfl

theorem replace_scatter_slice (tshape : List ℕ) (k : ℕ) (rows : List (List ℕ))
    (ublocks : List (List ℤ))
    (hrl : ∀ r ∈ rows, r.length = k)
    (hcoords : ∀ r ∈ rows, coordsOk tshape r = true)
    (hnodup : rows.Nodup)
    (hbl : ∀ b ∈ ublocks, b.length = prodL (tshape.drop k))
    (hbc : ublocks.length = rows.length)
    (i : ℕ) (hi : i < rows.length) (hiu : i < ublocks.length) :
    ((ufuncAtRun (fun _ u => u) (List.replicate (prodL tshape) 0)
        (ndPairs tshape rows ublocks)).drop
        (rowBase tshape (rows.get ⟨i, hi⟩))).take (prodL (tshape.drop k))
      = ublocks.get ⟨i, hiu⟩ := by
  have hri_mem : rows.get ⟨i, hi⟩ ∈ rows := List.mem_iff_get.mpr ⟨⟨i, hi⟩, rfl⟩
  have hbi_mem : ublocks.get ⟨i, hiu⟩ ∈ ublocks :=
    List.mem_iff_get.mpr ⟨⟨i, hiu⟩, rfl⟩
  have hri_len : (rows.get ⟨i, hi⟩).length = k := hrl _ hri_mem
  have hri_co : coordsOk tshape (rows.get ⟨i, hi⟩) = true := hcoords _ hri_mem
  have hbi_len : (ublocks.get ⟨i, hiu⟩).length = prodL (tshape.drop k) :=
    hbl _ hbi_mem
  have hbound : rowBase tshape (rows.get ⟨i, hi⟩) + prodL (tshape.drop k)
      ≤ prodL tshape := by
    have h := rowBase_block_le tshape _ hri_co
    rwa [hri_len] at h
  have hDlen : (ufuncAtRun (fun _ u => u) (List.replicate (prodL tshape) 0)
      (ndPairs tshape rows ublocks)).length = prodL tshape := by
    rw [ufuncAtRun_length, List.length_replicate]
  apply List.ext_getElem
  · rw [List.length_take, List.length_drop, hDlen, hbi_len]
    exact Nat.min_eq_left (by omega)
  · intro t0 h1 h2
    have ht : t0 < prodL (tshape.drop k) := by rwa [hbi_len] at h2
    have hlt : rowBase tshape (rows.get ⟨i, hi⟩) + t0 < prodL tshape := by omega
    have hltD : rowBase tshape (rows.get ⟨i, hi⟩) + t0
        < (ufuncAtRun (fun _ u => u) (List.replicate (prodL tshape) 0)
          (ndPairs tshape rows ublocks)).length := by rw [hDlen]; exact hlt
    rw [List.getElem_take, List.getElem_drop]
    have hg := replace_scatter_getD tshape k rows ublocks hrl hcoords hnodup hbl
      hbc i t0 hi hiu ht
    rwa [List.getD_eq_getElem _ _ hltD, List.getD_eq_getElem _ _ h2] at hg

theorem replace_scatter_slices_map (tshape : List ℕ) (k : ℕ)
    (rows : List (List ℕ)) (ublocks : List (List ℤ))
    (hrl : ∀ r ∈ rows, r.length = k)
    (hcoords : ∀ r ∈ rows, coordsOk tshape r = true)
    (hnodup : rows.Nodup)
    (hbl : ∀ b ∈ ublocks, b.length = prodL (tshape.drop k))
    (hbc : ublocks.length = rows.length) :
    rows.map (fun row =>
        ((ufuncAtRun (fun _ u => u) (List.replicate (prodL tshape) 0)
          (ndPairs tshape rows ublocks)).drop (rowBase tshape row)).take
          (prodL (tshape.drop k)))
      = ublocks := by
  apply List.ext_getElem
  · rw [List.length_map]
    exact hbc.symm
  · intro n h1 h2
    rw [List.getElem_map]
    have hn : n < rows.length := by rwa [List.length_map] at h1
    have hs := replace_scatter_slice tshape k rows ublocks hrl hcoords hnodup hbl
      hbc n hn h2
    simp only [List.get_eq_getElem] at hs
    exact hs

theorem scatter_nd_replace_eval (tshape leadShape : List ℕ) (k : ℕ)
    (rows : List (List ℕ)) (udata : List ℤ) (ublocks2 : List (List ℤ))
    (hk : k ≠ 0)
    (hrl : ∀ r ∈ rows, r.length = k)
    (hcoords : ∀ r ∈ rows, coordsOk tshape r = true)
    (hchunkU : chunk (prodL (tshape.drop k)) udata = ublocks2)
    (hulen : udata.length = rows.length * prodL (tshape.drop k)) :
    scatter_nd ⟨leadShape ++ [k], rows.flatten⟩ ⟨leadShape ++ tshape.drop k, udata⟩
        (some tshape) "replace" none
      = (.ok ⟨tshape, ufuncAtRun (fun _ u => u)
          (List.replicate (prodL tshape) 0) (ndPairs tshape rows ublocks2)⟩,
        none) := by
  have hlast : (leadShape ++ [k]).getLastD 0 = k := by simp
  have hmod : rows.flatten.length % k = 0 := by
    rw [flatten_length_const rows k hrl, Nat.mul_mod_left]
  have hmod2 : (List.map List.length rows).sum % k = 0 := by
    rwa [List.length_flatten] at hmod
  have hchunkR : chunk k rows.flatten = rows := chunk_flatten rows k hk hrl
  have hok : scatterNdOk tshape rows udata.length (prodL (tshape.drop k))
      = true := by
    unfold scatterNdOk
    rw [Bool.and_eq_true]
    exact ⟨List.all_eq_true.mpr (fun r hr => hcoords r hr),
      by rw [hulen]; exact beq_self_eq_true _⟩
  simp only [scatter_nd, hlast]
  rw [if_neg (by simp [assertFailNd])]
  rw [if_neg (by simp [hk, hmod2])]
  rw [hchunkR, hchunkU]
  rw [if_neg (by decide), if_pos (by decide)]
  rw [if_pos hok]

/-- Counterexample to C4 as stated: the single index row `[2^31]`
(trivially pairwise-distinct) with the matching update `[5]` over the
target shape `[2^31 + 1]` scatters correctly, but the follow-up
`gather_nd` casts the flat offset `2^31` to int32, so it wraps to
`-2^31`, `np.take` resolves it from the end of the buffer, and the
round trip returns `[0]` instead of the scattered update `[5]`. -/
theorem C4_counterexample :
    scatter_nd ⟨[1, 1], [2147483648]⟩ ⟨[1], [5]⟩ (some [2147483649]) "replace"
        none
      = (.ok ⟨[2147483649], (List.replicate 2147483649 (0 : ℤ)).set 2147483648 5⟩,
        none)
    ∧ gather_nd
        ⟨[2147483649], (List.replicate 2147483649 (0 : ℤ)).set 2147483648 5⟩
        ⟨[1, 1], [2147483648]⟩ none
      = (.ok ⟨[1], [0]⟩, none)
    ∧ (⟨[1], [0]⟩ : Tensor) ≠ ⟨[1], [5]⟩ := by
  refine ⟨?_, ?_, by decide⟩
  · exact scatter_nd_replace_eval [2147483649] [1] 1 [[2147483648]] [5]
      [[5]] (by decide) (by decide) (by decide) (by decide) (by decide)
  · have hLlen : ((List.replicate 2147483649 (0 : ℤ)).set 2147483648 5).length
        = 2147483649 := by
      rw [List.length_set, List.length_replicate]
    have hget1 : ((List.replicate 2147483649 (0 : ℤ)).set 2147483648 5).getD 1 0
        = 0 := by
      rw [List.getD_eq_getElem?_getD, List.getElem?_set_ne (by omega),
        List.getElem?_replicate]
      rw [if_pos (by norm_num)]
      rfl
    have htakeS : npTake ((List.replicate 2147483649 (0 : ℤ)).set 2147483648 5)
        (-2147483648) = some 0 := by
      rw [npTake, hLlen]
      rw [if_neg (by norm_num), if_pos (by norm_num)]
      rw [show (2147483649 - (-(-2147483648 : ℤ)).toNat) = 1 from by decide]
      rw [hget1]
    have hvS : npTakeAll ((List.replicate 2147483649 (0 : ℤ)).set 2147483648 5)
        [toInt32 2147483648] = some [0] := by
      rw [show toInt32 2147483648 = -2147483648 from by norm_num [toInt32]]
      rw [npTakeAll]
      rw [htakeS]
      rw [show npTakeAll ((List.replicate 2147483649 (0 : ℤ)).set 2147483648 5)
          [] = some [] from by rw [npTakeAll]]
    exact gnd_overflow_evalL _ 0 hvS

/-- C4 as amended: for every index tensor with pairwise-distinct index
rows (each a row of `k` in-range coordinates) and every matching update
tensor, over a target shape of total size at most `2^31` (the bound
forced by the int32 cast of the flat offsets in `gather_nd`),
`scatter_nd` with reduction `"replace"` and no output buffer followed
by `gather_nd` with the same indices returns exactly the scattered
updates. -/
theorem C4_scatter_gather_roundtrip
    (tshape leadShape : List ℕ) (k : ℕ) (rows : List (List ℕ))
    (ublocks : List (List ℤ))
    (hk : k ≠ 0) (hkr : k ≤ tshape.length)
    (hsmall : prodL tshape ≤ 2147483648)
    (hrl : ∀ r ∈ rows, r.length = k)
    (hcoords : ∀ r ∈ rows, coordsOk tshape r = true)
    (hnodup : rows.Nodup)
    (hbl : ∀ b ∈ ublocks, b.length = prodL (tshape.drop k))
    (hbc : ublocks.length = rows.length) :
    ∃ result : Tensor,
      scatter_nd ⟨leadShape ++ [k], rows.flatten⟩
          ⟨leadShape ++ tshape.drop k, ublocks.flatten⟩ (some tshape) "replace"
          none
        = (.ok result, none)
      ∧ gather_nd result ⟨leadShape ++ [k], rows.flatten⟩ none
        = (.ok ⟨leadShape ++ tshape.drop k, ublocks.flatten⟩, none) := by
  by_cases hB : prodL (tshape.drop k) = 0
  · have hub : ∀ b ∈ ublocks, b = [] := fun b hb =>
      List.eq_nil_of_length_eq_zero (by rw [hbl b hb, hB])
    have hufl : ublocks.flatten = [] := flatten_nil_of ublocks hub
    have hchunkU0 : chunk (prodL (tshape.drop k)) ublocks.flatten
        = ([] : List (List ℤ)) := by
      rw [hB, hufl]
      rfl
    have hulen0 : ublocks.flatten.length
        = rows.length * prodL (tshape.drop k) := by
      rw [hufl, hB]
      simp
    have hev := scatter_nd_replace_eval tshape leadShape k rows ublocks.flatten
      ([] : List (List ℤ)) hk hrl hcoords hchunkU0 hulen0
    rw [show ndPairs tshape rows ([] : List (List ℤ)) = [] from by
      simp [ndPairs]] at hev
    rw [show ufuncAtRun (fun _ u => u) (List.replicate (prodL tshape) (0 : ℤ)) []
        = List.replicate (prodL tshape) (0 : ℤ) from rfl] at hev
    refine ⟨⟨tshape, List.replicate (prodL tshape) 0⟩, hev, ?_⟩
    have hDlen0 : (List.replicate (prodL tshape) (0 : ℤ)).length = prodL tshape :=
      List.length_replicate _ _
    have hg := gather_nd_slices ⟨tshape, List.replicate (prodL tshape) 0⟩ k
      leadShape rows hDlen0 hsmall hk hkr hrl hcoords
    rw [hg]
    dsimp only
    rw [hB]
    rw [show (rows.flatMap fun row =>
        List.take 0 (List.drop (rowBase tshape row)
          (List.replicate (prodL tshape) (0 : ℤ)))) = [] from
      flatMap_nil_of _ _ (fun r hr => List.take_zero _)]
    rw [hufl]
  · have hchunkU : chunk (prodL (tshape.drop k)) ublocks.flatten = ublocks :=
      chunk_flatten ublocks _ hB hbl
    have hulen : ublocks.flatten.length
        = rows.length * prodL (tshape.drop k) := by
      rw [flatten_length_const ublocks _ hbl, hbc]
    have hscat := scatter_nd_replace_eval tshape leadShape k rows ublocks.flatten
      ublocks hk hrl hcoords hchunkU hulen
    have hDlen : (ufuncAtRun (fun _ u => u) (List.replicate (prodL tshape) 0)
        (ndPairs tshape rows ublocks)).length = prodL tshape := by
      rw [ufuncAtRun_length, List.length_replicate]
    have hg := gather_nd_slices ⟨tshape, ufuncAtRun (fun _ u => u)
        (List.replicate (prodL tshape) 0) (ndPairs tshape rows ublocks)⟩ k
      leadShape rows hDlen hsmall hk hkr hrl hcoords
    have hfl : (rows.flatMap fun row =>
        ((ufuncAtRun (fun _ u => u) (List.replicate (prodL tshape) 0)
          (ndPairs tshape rows ublocks)).drop (rowBase tshape row)).take
          (prodL (tshape.drop k))) = ublocks.flatten := by
      rw [flatMap_eq_flatten_map,
        replace_scatter_slices_map tshape k rows ublocks hrl hcoords hnodup hbl
          hbc]
    refine ⟨_, hscat, ?_⟩
    rw [hg]
    dsimp only
    rw [hfl]

/-- Witness for the amended C4: scattering the update blocks `[10, 20]`
and `[30, 40]` at the pairwise-distinct index rows `[1]` and `[0]` of a
`2 x 2` target with `"replace"` and gathering at the same indices
returns the updates unchanged. -/
theorem C4_witness :
    (1 : ℕ) ≠ 0 ∧
    ∃ result : Tensor,
      scatter_nd ⟨[2] ++ [1], ([[1], [0]] : List (List ℕ)).flatten⟩
          ⟨[2] ++ ([2, 2] : List ℕ).drop 1,
            ([[10, 20], [30, 40]] : List (List ℤ)).flatten⟩
          (some [2, 2]) "replace" none
        = (.ok result, none)
      ∧ gather_nd result ⟨[2] ++ [1], ([[1], [0]] : List (List ℕ)).flatten⟩ none
        = (.ok ⟨[2] ++ ([2, 2] : List ℕ).drop 1,
            ([[10, 20], [30, 40]] : List (List ℤ)).flatten⟩, none) :=
  ⟨by decide, C4_scatter_gather_roundtrip [2, 2] [2] 1 [[1], [0]]
    [[10, 20], [30, 40]] (by decide) (by decide) (by decide) (by decide)
    (by decide) (by decide) (by decide) (by decide)⟩
